import Mathlib

/-!
Verification of the TS_VFS_Playground virtual file system against its
specification.

The development shallowly embeds the TypeScript sources:

* the JavaScript Map (insertion-ordered association list with
  replace-in-place set and first-occurrence delete);
* the posix path utilities (normalize, join) used by the sources;
* the VirtualDirectory and VirtualFile tree: directories live in a flat
  store keyed by a numeric id, so object identity and aliasing of the
  mutable TypeScript objects are represented faithfully;
* the TypeScriptVFS facade (createFile, writeFile, deleteFile, moveFile,
  copyFile, glob, finalize) with its pending-change ledger;
* a backing-store model for fs (existsSync, mkdirSync, writeFileSync,
  rmSync) used by the commit path;
* the TypeScriptASTTransformer operations on imports and object-literal
  members, over an abstract statement / member representation.

All definitions are executable; theorems are stated over these
definitions.
-/

namespace TSVFS

/-! ## JavaScript Map model -/

/-- Lookup in an insertion-ordered association list, as JavaScript
Map.get: first (and, for maps built through mapSet, only) entry with the
key. -/
def mapGet {α β : Type} [DecidableEq α] : List (α × β) → α → Option β
  | [], _ => none
  | kv :: rest, k => if kv.1 = k then some kv.2 else mapGet rest k

/-- Membership test, as JavaScript Map.has. -/
def mapHas {α β : Type} [DecidableEq α] (m : List (α × β)) (k : α) : Bool :=
  (mapGet m k).isSome

/-- Insertion, as JavaScript Map.set: replaces the value in place when
the key is present (keeping insertion order), otherwise appends at the
end. -/
def mapSet {α β : Type} [DecidableEq α] : List (α × β) → α → β → List (α × β)
  | [], k, v => [(k, v)]
  | kv :: rest, k, v => if kv.1 = k then (k, v) :: rest else kv :: mapSet rest k v

/-- Removal, as JavaScript Map.delete (first occurrence of the key). -/
def mapDelete {α β : Type} [DecidableEq α] : List (α × β) → α → List (α × β)
  | [], _ => []
  | kv :: rest, k => if kv.1 = k then rest else kv :: mapDelete rest k

/-! ## Path and string utilities (node path.posix and JS string helpers) -/

/-- JS String.split on the forward-slash separator (worker on the
character list, accumulating the current segment in reverse). -/
def splitSlashAux : List Char → List Char → List String
  | acc, [] => [String.mk acc.reverse]
  | acc, c :: rest =>
    if c = '/' then String.mk acc.reverse :: splitSlashAux [] rest
    else splitSlashAux (c :: acc) rest

/-- JS String.split on the forward-slash separator; the empty string
splits to one empty segment, as in JS. -/
def splitSlash (s : String) : List String := splitSlashAux [] s.data

/-- Concatenation with forward-slash separators (Array.join of path
segments). -/
def joinSlash : List String → String
  | [] => ""
  | [x] => x
  | x :: y :: rest => x ++ "/" ++ joinSlash (y :: rest)

/-- Split a path on the forward-slash token and keep only nonempty
segments, the sources' split-and-filter idiom. -/
def splitFilter (p : String) : List String :=
  (splitSlash p).filter (fun s => s ≠ "")

/-- Segment resolution of node's posix normalize: drops empty and dot
segments and resolves dot-dot segments, optionally allowing them to
escape above the root (for relative paths). The accumulator holds
processed segments in reverse. -/
def normSegsAux (allowAboveRoot : Bool) : List String → List String → List String
  | acc, [] => acc.reverse
  | acc, seg :: rest =>
    if seg = "" ∨ seg = "." then normSegsAux allowAboveRoot acc rest
    else if seg = ".." then
      match acc with
      | t :: acctail =>
        if t ≠ ".." then normSegsAux allowAboveRoot acctail rest
        else if allowAboveRoot then normSegsAux allowAboveRoot (".." :: t :: acctail) rest
        else normSegsAux allowAboveRoot (t :: acctail) rest
      | [] =>
        if allowAboveRoot then normSegsAux allowAboveRoot [".."] rest
        else normSegsAux allowAboveRoot [] rest
    else normSegsAux allowAboveRoot (seg :: acc) rest

/-- node path.posix.normalize: resolve dot and dot-dot segments,
collapse repeated separators, keep a leading separator for absolute
paths and a trailing separator when the input had one. -/
def posixNormalize (p : String) : String :=
  if p = "" then "."
  else
    let isAbs := decide (p.data.head? = some '/')
    let trail := decide (p.data.getLast? = some '/')
    let segs := normSegsAux (!isAbs) [] (splitSlash p)
    let core := joinSlash segs
    if core = "" then
      if isAbs then "/" else if trail then "./" else "."
    else
      let core2 := if trail then core ++ "/" else core
      if isAbs then "/" ++ core2 else core2

/-- node path.posix.join on two arguments: drop empty arguments, join
the rest with a separator and normalize; the empty join is the dot
path. -/
def posixJoin (a b : String) : String :=
  let parts := [a, b].filter (fun s => s ≠ "")
  if parts.isEmpty then "." else posixNormalize (joinSlash parts)

/-- JS String.lastIndexOf for a single character: index of the last
occurrence, or minus one. -/
def lastIndexOfChar (s : String) (c : Char) : Int :=
  match s.data.reverse.findIdx? (fun d => d = c) with
  | none => -1
  | some i => ((s.data.length - 1 - i : Nat) : Int)

/-- JS String.substring(0, idx) with the JS clamping of negative
indices to zero. -/
def jsSubstringTake (s : String) (idx : Int) : String := String.mk (s.data.take idx.toNat)

/-- JS String.substring(idx) with the JS clamping of negative indices
to zero. -/
def jsSubstringFrom (s : String) (idx : Int) : String := String.mk (s.data.drop idx.toNat)

/-- VirtualFile.getExtension: substring after the last dot, empty when
there is no dot. -/
def getExtension (fileName : String) : String :=
  let dotIndex := lastIndexOfChar fileName '.'
  if dotIndex = -1 then "" else jsSubstringFrom fileName (dotIndex + 1)

/-- JS String.includes: substring containment. -/
def jsIncludes (s sub : String) : Bool := decide (sub.data <:+: s.data)

/-- TypeScriptVFS.removeSlashes: strip leading and trailing runs of
separators (the global regex anchored alternation). -/
def removeSlashes (p : String) : String :=
  String.mk (((p.data.dropWhile (fun c => c = '/')).reverse.dropWhile
    (fun c => c = '/')).reverse)

/-- Util.trimQuotes: strip one pair of matching single or double quotes
around the whole string (the anchored regex with a backreference; the
dot in it does not cross line terminators). -/
def trimQuotes (str : String) : String :=
  match str.data with
  | [] => str
  | c :: rest =>
    if (c = '"' ∨ c = '\'') ∧ rest.getLast? = some c ∧
        (∀ d ∈ rest.dropLast, d ≠ '\n' ∧ d ≠ '\r') then
      String.mk rest.dropLast
    else str

/-- Decimal digit characters, for the template-literal rendering of
counters. -/
def digitChar (n : Nat) : Char :=
  match n with
  | 0 => '0' | 1 => '1' | 2 => '2' | 3 => '3' | 4 => '4'
  | 5 => '5' | 6 => '6' | 7 => '7' | 8 => '8' | _ => '9'

/-- Decimal digit list of a natural number, most significant first
(recursion on the value; reference version for proofs). -/
def natDigits (n : Nat) : List Char :=
  if _h : n < 10 then [digitChar n]
  else natDigits (n / 10) ++ [digitChar (n % 10)]
decreasing_by
  exact Nat.div_lt_self (by omega) (by omega)

/-- Fuel-based accumulator worker computing the decimal digits; the
fuel only bounds the recursion and any fuel of at least the value is
enough. -/
def natDigitsGo : Nat → Nat → List Char → List Char
  | 0, n, acc => digitChar (n % 10) :: acc
  | fuel + 1, n, acc =>
    if n < 10 then digitChar n :: acc
    else natDigitsGo fuel (n / 10) (digitChar (n % 10) :: acc)

/-- Decimal rendering of a natural number, the model of JS
template-literal interpolation of a number. -/
def natToStr (n : Nat) : String := String.mk (natDigitsGo n n [])

/-! ## VirtualFile and VirtualDirectory (vfs-internals variant)

Directories are mutable, mutually referencing TypeScript objects; the
embedding stores them in a flat arena keyed by a numeric id, with
parent and child references held as ids, so that reference equality and
aliasing are represented exactly. -/

/-- Constants from global-constants: the supported source-file
extensions participating in the flattened fsMap. -/
def SUPPORTED_EXTENSIONS : List String :=
  [".ts", ".tsx", ".d.ts", ".cts", ".d.cts", ".mts", ".d.mts"]

/-- VirtualFile: name, mutable content and the path computed at
construction from the owning directory. The extension field is always
getExtension of the name, so it is kept derived. -/
structure VFile where
  name : String
  content : String
  path : String
deriving DecidableEq, Repr

/-- VirtualDirectory object state: name and path as computed by the
constructor, the parent reference (none only for the root), and the two
JS Maps of children. Child directories are referenced by store id. -/
structure DirNode where
  name : String
  path : String
  parentDir : Option Nat
  subDirs : List (String × Nat)
  files : List (String × VFile)
deriving DecidableEq, Repr

/-- The arena of directory objects plus the next fresh id. -/
structure VfsStore where
  dirs : List (Nat × DirNode)
  nextId : Nat
deriving DecidableEq, Repr

/-- Dereference a directory id. -/
def getDir (st : VfsStore) (i : Nat) : Option DirNode := mapGet st.dirs i

/-- Overwrite the object stored at an id (object mutation). -/
def setDir (st : VfsStore) (i : Nat) (n : DirNode) : VfsStore :=
  { st with dirs := mapSet st.dirs i n }

/-- VirtualFile construction: extension and path are derived from the
name and the owning directory's path at construction time. -/
def mkVFile (name content parentPath : String) : VFile :=
  { name := name, content := content, path := posixJoin (parentPath ++ "/") name }

/-- Name normalization in the VirtualDirectory constructor when a
parent is present: the normalized name cut after the raw name's last
separator, falling back to the raw name when that is empty. -/
def mkChildDirName (name : String) : String :=
  let n2 := jsSubstringFrom (posixNormalize name) (lastIndexOfChar name '/' + 1)
  if n2 = "" then name else n2

/-- VirtualDirectory constructor for a child directory. -/
def newChildDir (parentId : Nat) (parentPath : String) (name : String) : DirNode :=
  { name := mkChildDirName name
    path := posixJoin (parentPath ++ "/") name
    parentDir := some parentId
    subDirs := []
    files := [] }

/-- VirtualDirectory constructor for a root (no parent): the path keeps
its field default of the single separator and the name is normalized. -/
def newRootDir (name : String) : DirNode :=
  { name := posixNormalize name
    path := "/"
    parentDir := none
    subDirs := []
    files := [] }

/-- The object creation and registration step of addSubDirectory when a
segment is missing: construct the child, link it under the parent's
child map, and allocate it in the store under a fresh id. -/
def addChildDir (st : VfsStore) (cur : Nat) (node : DirNode) (part : String) : VfsStore :=
  let newId := st.nextId
  let st1 := setDir st cur { node with subDirs := mapSet node.subDirs part newId }
  { dirs := mapSet st1.dirs newId (newChildDir cur node.path part), nextId := st1.nextId + 1 }

/-- VirtualDirectory.addSubDirectory worker: walk the nonempty path
segments from the current directory, descending into existing children
and creating (and registering) missing ones; returns the updated store
and the terminal directory id. -/
def addSubDirectoryAux (st : VfsStore) (cur : Nat) : List String → VfsStore × Nat
  | [] => (st, cur)
  | part :: rest =>
    match getDir st cur with
    | none => (st, cur)
    | some node =>
      match mapGet node.subDirs part with
      | some child => addSubDirectoryAux st child rest
      | none => addSubDirectoryAux (addChildDir st cur node part) st.nextId rest

/-- VirtualDirectory.addSubDirectory: split-and-filter the path and walk
or create the segments. -/
def addSubDirectory (st : VfsStore) (selfId : Nat) (dirPath : String) : VfsStore × Nat :=
  addSubDirectoryAux st selfId (splitFilter dirPath)

/-- The lookup loop shared by findSubDirectory and removeSubDirectory:
descend through existing children only, failing when a segment is
absent. -/
def walkSubDirs (st : VfsStore) : Nat → List String → Option Nat
  | cur, [] => some cur
  | cur, part :: rest =>
    match getDir st cur with
    | none => none
    | some node =>
      match mapGet node.subDirs part with
      | none => none
      | some child => walkSubDirs st child rest

/-- VirtualDirectory.findSubDirectory: the raw search path is first
compared against the receiver's path; then the normalized path is
walked segment by segment; finally the resolved directory is returned
only when its name, path and parent reference all differ from the
receiver's. -/
def findSubDirectory (st : VfsStore) (selfId : Nat) (searchPath : String) : Option Nat :=
  match getDir st selfId with
  | none => none
  | some self =>
    if self.path = searchPath then some selfId
    else
      match walkSubDirs st selfId (splitFilter (posixNormalize searchPath)) with
      | none => none
      | some resolvedId =>
        match getDir st resolvedId with
        | none => none
        | some resolved =>
          if resolved.name ≠ self.name ∧ resolved.path ≠ self.path ∧
              resolved.parentDir ≠ self.parentDir then some resolvedId
          else none

/-- VirtualDirectory.findFile restated as a location: the directory id
and file key under which the file is stored. The normalized path is
split; the last segment is the file name; the leading segments resolve
through findSubDirectory except that an empty remainder resolves to the
receiver itself. -/
def findFileLoc (st : VfsStore) (selfId : Nat) (searchPath : String) : Option (Nat × String) :=
  let parts := splitFilter (posixNormalize searchPath)
  match parts.getLast? with
  | none => none
  | some fileName =>
    let prefixParts := parts.dropLast
    let containingDir :=
      if prefixParts.length = 0 then some selfId
      else findSubDirectory st selfId (joinSlash prefixParts)
    match containingDir with
    | none => none
    | some dirId =>
      match getDir st dirId with
      | none => none
      | some dir =>
        if (mapGet dir.files fileName).isSome then some (dirId, fileName) else none

/-- VirtualDirectory.findFile: the stored file at the resolved
location, or none. -/
def findFile (st : VfsStore) (selfId : Nat) (searchPath : String) : Option VFile :=
  match findFileLoc st selfId searchPath with
  | none => none
  | some (dirId, fileName) =>
    match getDir st dirId with
    | none => none
    | some dir => mapGet dir.files fileName

/-- VirtualDirectory.addFile (path overload): split the raw path, pop
the file name, create the intermediate directories, then register a
newly constructed VirtualFile under the name; a popped empty name is
the thrown name-must-be-provided error, modeled as none. -/
def addFile (st : VfsStore) (selfId : Nat) (filePath content : String) :
    Option (VfsStore × VFile) :=
  let parts := splitSlash filePath
  match parts.getLast? with
  | none => none
  | some fileName =>
    if fileName = "" then none
    else
      let res := addSubDirectoryAux st selfId (splitFilter (joinSlash parts.dropLast))
      match getDir res.1 res.2 with
      | none => none
      | some dir =>
        let newFile := mkVFile fileName content dir.path
        some (setDir res.1 res.2 { dir with files := mapSet dir.files fileName newFile },
          newFile)

/-- VirtualDirectory.removeFile: delete the file's name from the
receiver's file map; the Boolean is the JS Map.delete result. -/
def removeFile (st : VfsStore) (dirId : Nat) (fileName : String) : Bool × VfsStore :=
  match getDir st dirId with
  | none => (false, st)
  | some dir =>
    (mapHas dir.files fileName,
      setDir st dirId { dir with files := mapDelete dir.files fileName })

/-- VirtualDirectory.cloneFile: a fresh VirtualFile with the given
name, the source's content, and the target directory as parent. -/
def cloneFile (newFileName : String) (f : VFile) (targetPath : String) : VFile :=
  mkVFile newFileName f.content targetPath

/-- VirtualDirectory.moveFile on the receiver srcId: when the target
holds a file under the moved file's name and no explicit new name was
given, that file is deleted first; on success the file is removed from
the receiver and the clone is registered in the target (the
VirtualFile overload of addFile). -/
def moveFile (st : VfsStore) (srcId : Nat) (f : VFile) (tgtId : Nat)
    (newFileName : Option String) : Option VFile × VfsStore :=
  match getDir st tgtId with
  | none => (none, st)
  | some tgt =>
    let existing := mapGet tgt.files f.name
    let clone := cloneFile (newFileName.getD f.name) f tgt.path
    let step :=
      match existing, newFileName with
      | some ex, none => removeFile st tgtId ex.name
      | _, _ => (true, st)
    if step.1 then
      let st2 := (removeFile step.2 srcId f.name).2
      match getDir st2 tgtId with
      | none => (none, st2)
      | some tgt2 =>
        (some clone, setDir st2 tgtId { tgt2 with files := mapSet tgt2.files clone.name clone })
    else (none, step.2)

/-- The disambiguating-name loop of VirtualDirectory.copyFile: try
base(counter).extension for increasing counters until the name is free
in the target's file map. The fuel only bounds the loop; one more than
the map size is always enough. -/
def mintLoop (files : List (String × VFile)) (base ext : String) : Nat → Nat → String
  | counter, 0 => base ++ "(" ++ natToStr counter ++ ")." ++ ext
  | counter, fuel + 1 =>
    let cand := base ++ "(" ++ natToStr counter ++ ")." ++ ext
    if mapHas files cand then mintLoop files base ext (counter + 1) fuel else cand

/-- Worker for the first-match removal of the copy regex: at a given
position, match an optional parenthesized digit group followed by a dot
and a nonempty word-character run, returning the matched length. -/
def matchDisambigAt : List Char → Option Nat
  | '(' :: rest =>
    let ds := rest.takeWhile Char.isDigit
    if ds ≠ [] then
      match rest.drop ds.length with
      | ')' :: '.' :: rest2 =>
        let ws := rest2.takeWhile (fun c => c.isAlpha || c.isDigit || c == '_')
        if ws ≠ [] then some (1 + ds.length + 2 + ws.length) else none
      | _ => none
    else none
  | '.' :: rest =>
    let ws := rest.takeWhile (fun c => c.isAlpha || c.isDigit || c == '_')
    if ws ≠ [] then some (1 + ws.length) else none
  | _ => none

/-- Leftmost-match removal for the copy regex (the String.replace call
cleaning up a previous disambiguator): remove the first match, or keep
the string unchanged when there is none. -/
def replaceFirstAux : List Char → List Char
  | [] => []
  | l@(c :: rest) =>
    match matchDisambigAt l with
    | some n => l.drop n
    | none => c :: replaceFirstAux rest

/-- VirtualDirectory.copyFile's base-name computation: the file name
with the first optional-(n)-dot-extension occurrence removed. -/
def copyBaseName (fileName : String) : String := String.mk (replaceFirstAux fileName.data)

/-- VirtualDirectory.copyFile: resolve a free destination name
(incrementing a parenthesized counter on collision), then register the
clone in the target; the source directory is untouched. -/
def copyFile (st : VfsStore) (f : VFile) (tgtId : Nat) (newFileName : Option String) :
    Option VFile × VfsStore :=
  match getDir st tgtId with
  | none => (none, st)
  | some tgt =>
    let fileName0 := newFileName.getD f.name
    let fileName :=
      if mapHas tgt.files fileName0 then
        mintLoop tgt.files (copyBaseName fileName0) (getExtension f.name) 1
          (tgt.files.length + 1)
      else fileName0
    let clone := cloneFile fileName f tgt.path
    (some clone, setDir st tgtId { tgt with files := mapSet tgt.files clone.name clone })

/-- VirtualDirectory.removeSubDirectory: walk the nonempty segments;
missing segment means false; a non-empty resolved directory without
force means false; otherwise the resolved directory's key is deleted
from its parent's child map (false when the path had no segments or the
resolved directory has no parent). -/
def removeSubDirectory (st : VfsStore) (selfId : Nat) (dirPath : String) (force : Bool) :
    Bool × VfsStore :=
  let parts := splitFilter dirPath
  match walkSubDirs st selfId parts with
  | none => (false, st)
  | some curId =>
    match getDir st curId with
    | none => (false, st)
    | some cur =>
      if ¬ force ∧ (cur.files.length > 0 ∨ cur.subDirs.length > 0) then (false, st)
      else
        match parts.getLast?, cur.parentDir with
        | some last, some pid =>
          match getDir st pid with
          | none => (false, st)
          | some parent =>
            (mapHas parent.subDirs last,
              setDir st pid { parent with subDirs := mapDelete parent.subDirs last })
        | _, _ => (false, st)

/-! ## Store lemmas -/

/-- Well-formedness of the id counter: every allocated id is below the
next fresh id. All states reachable from a root construction satisfy
this. -/
def FreshIds (st : VfsStore) : Prop := ∀ i ∈ st.dirs.map Prod.fst, i < st.nextId

/-- Shape of one directory object being preserved up to extra child
entries: all scalar fields and the file map are unchanged and every old
child entry is still present with the same target. -/
def NodeExtends (n n' : DirNode) : Prop :=
  n'.name = n.name ∧ n'.path = n.path ∧ n'.parentDir = n.parentDir ∧ n'.files = n.files ∧
    ∀ k v, mapGet n.subDirs k = some v → mapGet n'.subDirs k = some v

/-! ## Copy-rename lemmas -/

/-- The candidate name tried by the copy collision loop at a given
counter. -/
def candName (base ext : String) (i : Nat) : String :=
  base ++ "(" ++ natToStr i ++ ")." ++ ext

/-! ## The TypeScriptVFS facade and the backing-store model -/

/-- The FileState enum values (string-valued in the source). -/
def FileStateNew : String := "new"

/-- The modified lifecycle tag. -/
def FileStateModified : String := "modified"

/-- The deleted lifecycle tag. -/
def FileStateDeleted : String := "deleted"

/-- Facade state: the configured root, the directory store with the
root directory's id, and the pending-change ledger (the watched-files
map from lifecycle tag to last-touched path). -/
structure TSVFSState where
  root : String
  store : VfsStore
  rootId : Nat
  watchedFilesMap : List (String × String)
deriving DecidableEq, Repr

/-- The facade's in-memory-only start state: a bare root directory
(the catch branch of the rootDir getter when no physical tree loads)
and an empty ledger. -/
def emptyRootState (root : String) : TSVFSState :=
  { root := root
    store := { dirs := [(0, newRootDir root)], nextId := 1 }
    rootId := 0
    watchedFilesMap := [] }

/-- TypeScriptVFS.createFile: add the file under the root directory and
record its path under the new-file tag. -/
def createFileF (st : TSVFSState) (name content : String) : Option (TSVFSState × VFile) :=
  match addFile st.store st.rootId name content with
  | none => none
  | some (store2, newFile) =>
    some ({ st with
      store := store2
      watchedFilesMap := mapSet st.watchedFilesMap FileStateNew newFile.path }, newFile)

/-- TypeScriptVFS.findFile via the root directory. -/
def findFileF (st : TSVFSState) (p : String) : Option VFile := findFile st.store st.rootId p

/-- TypeScriptVFS.fileExists. -/
def fileExistsF (st : TSVFSState) (p : String) : Bool := (findFileF st p).isSome

/-- TypeScriptVFS.readFile. -/
def readFileF (st : TSVFSState) (p : String) : Option String :=
  (findFileF st p).map (fun f => f.content)

/-- TypeScriptVFS.findDirectory via the root directory. -/
def findDirectoryF (st : TSVFSState) (p : String) : Option Nat :=
  findSubDirectory st.store st.rootId p

/-- TypeScriptVFS.directoryExists. -/
def directoryExistsF (st : TSVFSState) (p : String) : Bool := (findDirectoryF st p).isSome

/-- TypeScriptVFS.addDirectory: delegate to the root directory's
addSubDirectory. -/
def addDirectoryF (st : TSVFSState) (p : String) : TSVFSState × Nat :=
  let res := addSubDirectory st.store st.rootId p
  ({ st with store := res.1 }, res.2)

/-- TypeScriptVFS.removeDirectory. -/
def removeDirectoryF (st : TSVFSState) (p : String) (force : Bool) : Bool × TSVFSState :=
  let res := removeSubDirectory st.store st.rootId p force
  (res.1, { st with store := res.2 })

/-- TypeScriptVFS.writeFile: mutate the found file's content in place
and record its path under the modified tag. -/
def writeFileF (st : TSVFSState) (filePath content : String) : Option VFile × TSVFSState :=
  match findFileLoc st.store st.rootId filePath with
  | none => (none, st)
  | some (dirId, key) =>
    match getDir st.store dirId with
    | none => (none, st)
    | some dir =>
      match mapGet dir.files key with
      | none => (none, st)
      | some f =>
        let f2 : VFile := { f with content := content }
        (some f2,
          { st with
            store := setDir st.store dirId { dir with files := mapSet dir.files key f2 }
            watchedFilesMap := mapSet st.watchedFilesMap FileStateModified f2.path })

/-- TypeScriptVFS.deleteFile: the lookup key is the first ledger tag
occurring as a substring of the argument, falling back to the argument;
the file found under that key is removed from its parent directory (its
containing directory in any reachable state) and on success the key is
recorded under the deleted tag. -/
def deleteFileF (st : TSVFSState) (filePath : String) : Bool × TSVFSState :=
  let key := ((st.watchedFilesMap.map Prod.fst).find?
    (fun k => jsIncludes filePath k)).getD filePath
  match findFileLoc st.store st.rootId key with
  | none => (false, st)
  | some (dirId, fname) =>
    let res := removeFile st.store dirId fname
    if res.1 then
      (true, { st with
        store := res.2
        watchedFilesMap := mapSet st.watchedFilesMap FileStateDeleted key })
    else (false, { st with store := res.2 })

/-- TypeScriptVFS.moveFile: resolve file and target directory, then
delegate to the source directory's moveFile. -/
def moveFileF (st : TSVFSState) (filePath targetDirPath : String)
    (newFileName : Option String) : Option VFile × TSVFSState :=
  if targetDirPath = "" then (none, st)
  else
    match findFileLoc st.store st.rootId filePath with
    | none => (none, st)
    | some (dirId, _fname) =>
      match findFile st.store st.rootId filePath with
      | none => (none, st)
      | some f =>
        match findSubDirectory st.store st.rootId targetDirPath with
        | none => (none, st)
        | some tgtId =>
          let res := moveFile st.store dirId f tgtId newFileName
          (res.1, { st with store := res.2 })

/-- TypeScriptVFS.copyFile: resolve file and target directory, then
delegate to the directory-level copyFile. -/
def copyFileF (st : TSVFSState) (filePath targetDirPath : String)
    (newFileName : Option String) : Option VFile × TSVFSState :=
  if targetDirPath = "" then (none, st)
  else
    match findFile st.store st.rootId filePath with
    | none => (none, st)
    | some f =>
      match findSubDirectory st.store st.rootId targetDirPath with
      | none => (none, st)
      | some tgtId =>
        let res := copyFile st.store f tgtId newFileName
        (res.1, { st with store := res.2 })

/-- A backing-store entry: a regular file with content, or a
directory. -/
inductive FsEntry
  | file (content : String)
  | dirEntry
deriving DecidableEq, Repr

/-- The backing store as a mapping from absolute paths to entries. -/
abbrev Disc : Type := List (String × FsEntry)

/-- fs.existsSync. -/
def discExists (d : Disc) (p : String) : Bool := mapHas d p

/-- fs.writeFileSync; writing where a directory sits is the EISDIR
error, modeled as none. -/
def discWriteFile (d : Disc) (p c : String) : Option Disc :=
  match mapGet d p with
  | some FsEntry.dirEntry => none
  | _ => some (mapSet d p (FsEntry.file c))

/-- The chain of ancestor paths of a slash path, shortest first,
keeping the leading separator for absolute paths. -/
def ancestorPaths (p : String) : List String :=
  let segs := splitFilter p
  let lead := if p.data.head? = some '/' then "/" else ""
  (List.range segs.length).map (fun i => lead ++ joinSlash (segs.take (i + 1)))

/-- fs.mkdirSync with the recursive option: create every missing
directory along the path (the theorems only exercise states where the
path already exists or no entry blocks it). -/
def discMkdirRecursive (d : Disc) (p : String) : Disc :=
  (ancestorPaths p).foldl
    (fun acc q => if discExists acc q then acc else acc ++ [(q, FsEntry.dirEntry)]) d

/-- fs.rmSync without the recursive option: removes a regular file;
a directory (EISDIR) or a missing path (ENOENT) is an error, modeled
as none. -/
def discRmSync (d : Disc) (p : String) : Option Disc :=
  match mapGet d p with
  | some (FsEntry.file _) => some (mapDelete d p)
  | some FsEntry.dirEntry => none
  | none => none

/-- TypeScriptVFS.updateFilesOnDisc: replay the watched-files ledger
against the backing store in insertion order; none models a thrown fs
error propagating out (the ledger is only cleared by the caller after
the whole loop succeeds). -/
def updateFilesOnDiscAux (root : String) (store : VfsStore) (rootId : Nat) :
    List (String × String) → Disc → Option Disc
  | [], d => some d
  | (state, pth) :: rest, d =>
    let file := findFile store rootId pth
    let sub := match file with
      | some f => jsSubstringTake f.path (lastIndexOfChar f.path '/')
      | none => ""
    let dir := posixJoin root (if sub = "" then pth else sub)
    if state = FileStateNew ∨ state = FileStateModified then
      let d1 := if discExists d dir then d else discMkdirRecursive d dir
      match file with
      | some f =>
        match discWriteFile d1 (posixJoin root f.path) f.content with
        | some d2 => updateFilesOnDiscAux root store rootId rest d2
        | none => none
      | none => updateFilesOnDiscAux root store rootId rest d1
    else if state = FileStateDeleted then
      let fp := posixJoin root ((file.map (fun f => f.path)).getD pth)
      if file.isSome ∨ discExists d fp then
        match discRmSync d (posixNormalize fp) with
        | some d2 => updateFilesOnDiscAux root store rootId rest d2
        | none => none
      else updateFilesOnDiscAux root store rootId rest d
    else updateFilesOnDiscAux root store rootId rest d

/-- TypeScriptVFS.finalize with no argument: when the root is not the
bare separator, replay the ledger on the backing store (a thrown error
is none, wrapped by the source into a commit-level error) and clear the
ledger; with the bare-separator root nothing touches the store and the
ledger stays. -/
def finalizeF (st : TSVFSState) (d : Disc) : Option (TSVFSState × Disc) :=
  if st.root ≠ "/" then
    match updateFilesOnDiscAux st.root st.store st.rootId st.watchedFilesMap d with
    | some d2 => some ({ st with watchedFilesMap := [] }, d2)
    | none => none
  else some (st, d)

/-! ## TypeScriptASTTransformer: imports and object-literal members

The transformer operates on one parsed unit; statements and
object-literal members are embedded abstractly. Import declarations
carry an optional default-import name and optional named bindings; a
named specifier has an optional property name (the imported name when
aliased) and a name (the local name). Every transform in the source
ends with a flush (reprint and re-parse), so module-specifier text is
always available and quoted. -/

/-- A named import specifier: propertyName is present exactly for
aliased imports, name is the local binding. -/
structure ImportSpecifierM where
  propertyName : Option String
  name : String
deriving DecidableEq, Repr

/-- An import clause: an optional default-import identifier and
optional named bindings. -/
structure ImportClauseM where
  name : Option String
  namedBindings : Option (List ImportSpecifierM)
deriving DecidableEq, Repr

/-- A top-level statement of the unit. -/
inductive StatementM
  | importDecl (clause : ImportClauseM) (moduleSpecifier : String)
  | otherStatement (text : String)
deriving DecidableEq, Repr

/-- The IIdentifier input shape of addImportDeclaration. -/
structure IIdentifierM where
  name : String
  aliasName : Option String
deriving DecidableEq, Repr

/-- The IImport record built by findImportedIdentifiers. -/
structure IImportM where
  identifierName : String
  moduleName : String
  aliasName : Option String
deriving DecidableEq, Repr

/-- getText of a parsed module specifier: the printed string literal
including its double quotes. -/
def moduleGetText (m : String) : String := "\"" ++ m ++ "\""

/-- ts.isImportDeclaration. -/
def isImportDeclM : StatementM → Bool
  | .importDecl _ _ => true
  | _ => false

/-- TypeScriptASTTransformer.findImportedIdentifiers: walk all import
declarations and collect, per imported identifier name, the module
text and the alias (the local name when a property name is present). -/
def findImportedIdentifiers (statements : List StatementM) : List (String × IImportM) :=
  statements.foldl (fun acc stmt =>
    match stmt with
    | .importDecl clause mod =>
      match clause.namedBindings with
      | some elements =>
        elements.foldl (fun acc2 el =>
          let identifier := el.propertyName.getD el.name
          let aliasName := if el.propertyName.isSome then some el.name else none
          mapSet acc2 identifier ⟨identifier, moduleGetText mod, aliasName⟩) acc
      | none => acc
    | _ => acc) []

/-- TypeScriptASTTransformer.resolveIdentifiersToImport: the filter
deciding which requested identifiers survive, with the source's boolean
structure kept intact. -/
def resolveIdentifiersToImport (identifiers : List IIdentifierM)
    (allImportedIdentifiers : List (String × IImportM)) (modulePath : String) :
    List IIdentifierM :=
  identifiers.filter (fun identifier =>
    let aliasCollides := allImportedIdentifiers.any (fun kv =>
      kv.2.aliasName.isSome && decide (kv.2.aliasName = identifier.aliasName))
    let importInfo := mapGet allImportedIdentifiers identifier.name
    let sameModule := match importInfo with
      | some info => decide (trimQuotes info.moduleName = trimQuotes modulePath)
      | none => false
    let identifierNameCollides := match importInfo with
      | some info => decide (info.identifierName = identifier.name)
      | none => false
    let collidesButDifferentAlias := identifierNameCollides && (match importInfo with
      | some info => decide (info.aliasName ≠ identifier.aliasName)
      | none => false)
    let collidesButDifferentAliasAndModule := collidesButDifferentAlias && !sameModule
    let isNewImport := !importInfo.isSome || sameModule
    (!identifierNameCollides || collidesButDifferentAlias ||
      collidesButDifferentAliasAndModule) && !aliasCollides && isNewImport && !sameModule)

/-- TypeScriptASTTransformer.createImportSpecifierWithOptionalAlias. -/
def createImportSpecifierWithOptionalAlias (identifier : IIdentifierM) : ImportSpecifierM :=
  match identifier.aliasName with
  | some a => ⟨some identifier.name, a⟩
  | none => ⟨none, identifier.name⟩

/-- TypeScriptASTTransformer.createImportDeclaration: a default import
uses only the first identifier's name with no alias; otherwise a named
specifier list. -/
def createImportDeclarationM (identifiers : List IIdentifierM) (modulePath : String)
    (isDefault : Bool) : StatementM :=
  if isDefault then
    .importDecl ⟨some ((identifiers.head?.map (fun i => i.name)).getD ""), none⟩ modulePath
  else
    .importDecl ⟨none, some (identifiers.map createImportSpecifierWithOptionalAlias)⟩
      modulePath

/-- The statement-loop condition: an import declaration whose trimmed
module-specifier text equals the trimmed requested module path. -/
def stmtModuleMatches (modulePath : String) : StatementM → Bool
  | .importDecl _ m => decide (trimQuotes (moduleGetText m) = trimQuotes modulePath)
  | _ => false

/-- The statement loop of addImportDeclaration: at the first statement
matching the module, extend its named bindings with the surviving
identifiers when there are any, and stop scanning (the break). -/
def updateFirstMatchingImport (toImport : List IIdentifierM) (modulePath : String) :
    List StatementM → List StatementM × Bool
  | [] => ([], false)
  | stmt :: rest =>
    if isImportDeclM stmt && stmtModuleMatches modulePath stmt then
      match stmt with
      | .importDecl clause m =>
        (match clause.namedBindings with
        | some elements =>
          if toImport.length > 0 then
            (.importDecl ⟨clause.name, some (elements ++
              toImport.map createImportSpecifierWithOptionalAlias)⟩ m :: rest, true)
          else (stmt :: rest, false)
        | none => (stmt :: rest, false))
      | .otherStatement t => (.otherStatement t :: rest, false)
    else
      let res := updateFirstMatchingImport toImport modulePath rest
      (stmt :: res.1, res.2)

/-- TypeScriptASTTransformer.addImportDeclaration: resolve the
surviving identifiers, update an existing declaration for the module in
place, and otherwise (when no update happened and identifiers survive)
synthesize a new declaration from the full requested identifier list,
inserted after the existing import declarations. -/
def addImportDeclarationM (statements : List StatementM) (identifiers : List IIdentifierM)
    (modulePath : String) (isDefault : Bool) : List StatementM :=
  let allImportedIdentifiers := findImportedIdentifiers statements
  let identifiersToImport :=
    resolveIdentifiersToImport identifiers allImportedIdentifiers modulePath
  let res := updateFirstMatchingImport identifiersToImport modulePath statements
  if !res.2 && identifiers.length > 0 && identifiersToImport.length > 0 then
    statements.filter isImportDeclM
      ++ [createImportDeclarationM identifiers modulePath isDefault]
      ++ statements.filter (fun s => !isImportDeclM s)
  else res.1

/-- An object-literal member: a property assignment with its position
markers, key text and value, or any other member kind. Nodes freshly
synthesized through the factory carry negative positions until a
flush re-parses the unit. -/
inductive OLMember
  | propertyAssignment (pos pend : Int) (pname : String) (value : String)
  | otherMember (pos pend : Int) (text : String)
deriving DecidableEq, Repr

/-- The per-property step of updateObjectLiteralMember: skip property
assignments with a negative position marker, update the value of a
property assignment whose key matches, keep everything else. -/
def updateObjectLiteralMemberOne (targetName targetValue : String) :
    OLMember → OLMember
  | .propertyAssignment pos pend pname value =>
    if pos < 0 ∨ pend < 0 then .propertyAssignment pos pend pname value
    else if pname = targetName then .propertyAssignment pos pend pname targetValue
    else .propertyAssignment pos pend pname value
  | .otherMember pos pend text => .otherMember pos pend text

/-- TypeScriptASTTransformer.updateObjectLiteralMember restricted to
one matched object literal: map the update step over its members. -/
def updateObjectLiteralMemberM (props : List OLMember) (targetName targetValue : String) :
    List OLMember :=
  props.map (updateObjectLiteralMemberOne targetName targetValue)

/-- TypeScriptASTTransformer.addMemberToObjectLiteral restricted to one
matched object literal: append a factory-created property assignment,
whose position markers are the factory's minus one until a flush. -/
def addMemberToObjectLiteralM (props : List OLMember) (pname value : String) :
    List OLMember :=
  props ++ [.propertyAssignment (-1) (-1) pname value]

/-! ## Glob matching

The facade compiles a glob to a regular expression string and tests it
against every fsMap path. The embedding builds the same regex string
and interprets the fragment of regex syntax those strings use (escaped
literals, dot-star from a doubled star, slash-prefixed
single-segment classes, the caret or caret-or-slash prefix group);
strings outside the fragment, on which the RegExp constructor or its
semantics leave the modeled fragment, compile to none. -/

/-- The character class escaped by globToRegExp's first replace. -/
def isRegexMeta (c : Char) : Bool :=
  c == '.' || c == '+' || c == '^' || c == '$' || c == '(' || c == ')' ||
    c == '\x7b' || c == '\x7d' || c == '|' || c == '[' || c == ']' || c == '\\'

/-- Escape regex metacharacters in the glob (the backslash-dollar-amp
replacement). -/
def escapeRegexChars (l : List Char) : List Char :=
  (l.map (fun c => if isRegexMeta c then ['\\', c] else [c])).flatten

/-- Replace every doubled star with dot star, left to right and
non-overlapping. -/
def replaceStarStar : List Char → List Char
  | '*' :: '*' :: rest => '.' :: '*' :: replaceStarStar rest
  | c :: rest => c :: replaceStarStar rest
  | [] => []

/-- Replace every slash-star with slash, not-slash class, star. -/
def replaceSlashStar : List Char → List Char
  | '/' :: '*' :: rest => '/' :: '[' :: '^' :: '/' :: ']' :: '*' :: replaceSlashStar rest
  | c :: rest => c :: replaceSlashStar rest
  | [] => []

/-- TypeScriptVFS.globToRegExp, up to the RegExp constructor: the
escaped and replaced pattern with the anchor prefix (a caret for
separator-anchored globs, a caret-or-slash group otherwise). -/
def globToRegExpString (glob : String) : String :=
  let s := replaceSlashStar (replaceStarStar (escapeRegexChars glob.data))
  if glob.data.head? = some '/' then String.mk ('^' :: s)
  else String.mk ('(' :: '^' :: '|' :: '/' :: ')' :: s)

/-- Atoms of the generated regex fragment. -/
inductive RAtom
  | rchar (c : Char)
  | rany
  | rnotSlash
deriving DecidableEq, Repr

/-- Items: a single atom or a starred atom. -/
inductive RItem
  | ratom (a : RAtom)
  | rstar (a : RAtom)
deriving DecidableEq, Repr

/-- Characters that stand for themselves in the generated fragment. -/
def plainRegexChar (c : Char) : Bool :=
  !(c == '*' || c == '?' || c == '(' || c == ')' || c == '|' || c == '[' || c == ']' ||
    c == '^' || c == '$' || c == '\\' || c == '+' || c == '\x7b' || c == '\x7d' || c == '.')

/-- Parse the body of a generated regex string into items; anything
outside the fragment is none. -/
def parseItems : List Char → Option (List RItem)
  | [] => some []
  | '\\' :: _ :: '*' :: '*' :: _ => none
  | '\\' :: c :: '*' :: rest =>
    (parseItems rest).map (fun l => RItem.rstar (RAtom.rchar c) :: l)
  | '\\' :: c :: rest =>
    (parseItems rest).map (fun l => RItem.ratom (RAtom.rchar c) :: l)
  | ['\\'] => none
  | '[' :: '^' :: '/' :: ']' :: '*' :: '*' :: _ => none
  | '[' :: '^' :: '/' :: ']' :: '*' :: rest =>
    (parseItems rest).map (fun l => RItem.rstar RAtom.rnotSlash :: l)
  | '[' :: '^' :: '/' :: ']' :: rest =>
    (parseItems rest).map (fun l => RItem.ratom RAtom.rnotSlash :: l)
  | '[' :: _ => none
  | '.' :: '*' :: '*' :: _ => none
  | '.' :: '*' :: rest => (parseItems rest).map (fun l => RItem.rstar RAtom.rany :: l)
  | '.' :: rest => (parseItems rest).map (fun l => RItem.ratom RAtom.rany :: l)
  | c :: '*' :: '*' :: _ => if plainRegexChar c then none else none
  | c :: '*' :: rest =>
    if plainRegexChar c then (parseItems rest).map (fun l => RItem.rstar (RAtom.rchar c) :: l)
    else none
  | c :: rest =>
    if plainRegexChar c then (parseItems rest).map (fun l => RItem.ratom (RAtom.rchar c) :: l)
    else none

/-- A compiled glob regex: anchored at the start, or allowed to start
after any separator. -/
structure GlobRegex where
  anchored : Bool
  items : List RItem
deriving DecidableEq, Repr

/-- Compile a generated regex string (the RegExp constructor for the
generated fragment). -/
def compileRegexString (s : String) : Option GlobRegex :=
  match s.data with
  | '(' :: '^' :: '|' :: '/' :: ')' :: rest =>
    (parseItems rest).map (fun items => ⟨false, items⟩)
  | '^' :: rest => (parseItems rest).map (fun items => ⟨true, items⟩)
  | _ => none

/-- The compiled form of globToRegExp. -/
def globToRegExpM (glob : String) : Option GlobRegex :=
  compileRegexString (globToRegExpString glob)

/-- Single-character matching; the regex dot does not match line
terminators. -/
def atomMatch : RAtom → Char → Bool
  | .rchar c, d => c == d
  | .rany, d => !(d == '\n' || d == '\r' || d == '\u2028' || d == '\u2029')
  | .rnotSlash, d => !(d == '/')

/-- Worker for matching with explicit fuel; every recursive call
shrinks the combined size of items and input, so any fuel beyond that
sum is enough. -/
def matchItemsGo : Nat → List RItem → List Char → Bool
  | 0, items, _ => items.isEmpty
  | fuel + 1, items, s =>
    match items, s with
    | [], _ => true
    | .ratom a :: rest, c :: cs => atomMatch a c && matchItemsGo fuel rest cs
    | .ratom _ :: _, [] => false
    | .rstar a :: rest, s2 =>
      matchItemsGo fuel rest s2 ||
        (match s2 with
         | c :: cs => atomMatch a c && matchItemsGo fuel (.rstar a :: rest) cs
         | [] => false)

/-- Existence of a match of the items against some prefix of the
character list (the pattern has no end anchor). -/
def matchItems (items : List RItem) (s : List Char) : Bool :=
  matchItemsGo (items.length + s.length + 1) items s

/-- Existence of a match starting right after some separator
character. -/
def searchSlash (items : List RItem) : List Char → Bool
  | [] => false
  | '/' :: cs => matchItems items cs || searchSlash items cs
  | _ :: cs => searchSlash items cs

/-- RegExp.test for the compiled fragment: an anchored pattern must
match at the start; the caret-or-slash group matches at the start or
right after any separator. -/
def regexTest (re : GlobRegex) (s : String) : Bool :=
  if re.anchored then matchItems re.items s.data
  else matchItems re.items s.data || searchSlash re.items s.data

/-- Stable insertion of a string into a length-sorted list. -/
def sortByLenInsert (x : String) : List String → List String
  | [] => [x]
  | y :: ys => if x.length ≤ y.length then x :: y :: ys else y :: sortByLenInsert x ys

/-- The length-ascending sort of the glob results (JS Array.sort with
the length-difference comparator, a stable sort). -/
def sortByLen : List String → List String
  | [] => []
  | x :: xs => sortByLenInsert x (sortByLen xs)

/-- TypeScriptVFS.convertToFsMap over the store: children first in
insertion order, then the current directory's files with supported
extensions, keyed by file path. The fuel bounds the recursion depth
through the store; any fuel at least the tree height is enough, and the
facade passes one more than the store size. -/
def convertToFsMapAux (st : VfsStore) (exts : List String) :
    Nat → Nat → List (String × String) → List (String × String)
  | 0, _, fsMap => fsMap
  | fuel + 1, dirId, fsMap =>
    match getDir st dirId with
    | none => fsMap
    | some dir =>
      let fsMap1 := dir.subDirs.foldl (fun acc kv => convertToFsMapAux st exts fuel kv.2 acc)
        fsMap
      dir.files.foldl (fun acc kv =>
        if exts.contains ("." ++ getExtension kv.2.name) then
          mapSet acc kv.2.path kv.2.content
        else acc) fsMap1

/-- The flush product: the flattened path-to-content projection of the
current tree (flush rebuilds it into a fresh map each time). -/
def fsMapOf (st : TSVFSState) : List (String × String) :=
  convertToFsMapAux st.store SUPPORTED_EXTENSIONS (st.store.dirs.length + 1) st.rootId []

/-- TypeScriptVFS.glob: flush, compile the pattern, collect the
matching entries (anchored patterns test the raw path, unanchored ones
the slash-stripped path) and sort them by ascending length; none models
a pattern on which the RegExp constructor or its semantics leave the
modeled fragment. -/
def globF (st : TSVFSState) (pattern : String) : Option (List String) :=
  let fsMap := fsMapOf st
  match globToRegExpM pattern with
  | none => none
  | some re =>
    let entries := fsMap.filterMap (fun kv =>
      let filePath := if pattern.data.head? = some '/' then kv.1 else removeSlashes kv.1
      if regexTest re filePath then some filePath else none)
    some (sortByLen entries)

/-! ## Shape invariance: changes to file maps leave directory walks
unchanged -/

/-- The part of a directory object that lookups of directories read:
name, path, parent reference and child map. -/
def dirShape (n : DirNode) : String × String × Option Nat × List (String × Nat) :=
  (n.name, n.path, n.parentDir, n.subDirs)

/-- Two stores with identical directory shapes everywhere (they may
differ in file maps). -/
def SameShapes (st st' : VfsStore) : Prop :=
  ∀ i, (getDir st i).map dirShape = (getDir st' i).map dirShape

/-- Provenance of a flush-map key: it is the stored path of some file
held by some directory of the store whose name has an allowlisted
extension. -/
def FileKeyProv (st : VfsStore) (exts : List String) (k : String) : Prop :=
  ∃ i dir kv, getDir st i = some dir ∧ kv ∈ dir.files ∧ k = kv.2.path ∧
    exts.contains ("." ++ getExtension kv.2.name) = true

/-! ## Concrete states for the scenario instances -/

/-- A facade state over a non-separator root whose virtual tree holds
one file a.ts (the state right after a load of a one-file project). -/
def c2WitnessState : TSVFSState :=
  ⟨"/proj", ⟨[(0, ⟨"/proj", "/", none, [], [("a.ts", ⟨"a.ts", "x", "/a.ts"⟩)]⟩)], 1⟩, 0, []⟩

/-- The matching backing store holding a.ts under the configured
root. -/
def c2WitnessDisc : Disc := [("/proj/a.ts", FsEntry.file "x")]

/-- A facade state like c2WitnessState whose single file name contains
the modified lifecycle tag as a substring. -/
def c5State : TSVFSState :=
  ⟨"/proj", ⟨[(0, ⟨"/proj", "/", none, [],
    [("modified.ts", ⟨"modified.ts", "x", "/modified.ts"⟩)]⟩)], 1⟩, 0, []⟩

/-- A two-directory store: the root holds a.ts and a child directory
sub that holds its own a.ts. -/
def c3Store : VfsStore :=
  ⟨[(0, ⟨"/", "/", none, [("sub", 1)], [("a.ts", ⟨"a.ts", "SRC", "/a.ts"⟩)]⟩),
    (1, ⟨"sub", "/sub", some 0, [], [("a.ts", ⟨"a.ts", "OLD", "/sub/a.ts"⟩)]⟩)], 2⟩

/-- The facade state after creating the three nested test files of the
glob scenario. -/
def c7State : TSVFSState :=
  (((createFileF (emptyRootState "/") "src/app/test.ts" "a").bind (fun r1 =>
    (createFileF r1.1 "src/app/testing/test.ts" "b").bind (fun r2 =>
      (createFileF r2.1 "src/app/testing/nested-test.ts" "c").map Prod.fst)))).getD
    (emptyRootState "/")

/-- The facade state after creating a file at a/b/c.ts. -/
def c10State : TSVFSState :=
  ((createFileF (emptyRootState "/") "a/b/c.ts" "x").map Prod.fst).getD (emptyRootState "/")

/-- The one-import unit: import { mock } from "module". -/
def mockUnit : List StatementM :=
  [StatementM.importDecl ⟨none, some [⟨none, "mock"⟩]⟩ "module"]

/-! ## Theorems -/

theorem mapGet_mapSet_self {α β : Type} [DecidableEq α] (m : List (α × β)) (k : α) (v : β) :
    mapGet (mapSet m k v) k = some v := by
  induction m with
  | nil => simp [mapSet, mapGet]
  | cons kv rest ih =>
    by_cases h : kv.1 = k
    · simp [mapSet, h, mapGet]
    · simp [mapSet, h, mapGet, ih]

theorem mapGet_mapSet_ne {α β : Type} [DecidableEq α] (m : List (α × β)) (k k' : α) (v : β)
    (h : k ≠ k') : mapGet (mapSet m k v) k' = mapGet m k' := by
  induction m with
  | nil => simp [mapSet, mapGet, h]
  | cons kv rest ih =>
    by_cases hk : kv.1 = k
    · simp [mapSet, hk, mapGet, h]
    · simp only [mapSet, if_neg hk]
      by_cases hk' : kv.1 = k'
      · simp [mapGet, hk']
      · simp [mapGet, hk', ih]

theorem mapGet_eq_none_of_not_mem {α β : Type} [DecidableEq α] {m : List (α × β)} {k : α}
    (h : k ∉ m.map Prod.fst) : mapGet m k = none := by
  induction m with
  | nil => rfl
  | cons kv rest ih =>
    simp only [List.map_cons, List.mem_cons, not_or] at h
    have h1 : kv.1 ≠ k := fun hc => h.1 hc.symm
    simp [mapGet, h1, ih h.2]

theorem mem_keys_of_mapGet_isSome {α β : Type} [DecidableEq α] {m : List (α × β)} {k : α}
    (h : (mapGet m k).isSome) : k ∈ m.map Prod.fst := by
  induction m with
  | nil => simp [mapGet] at h
  | cons kv rest ih =>
    by_cases hk : kv.1 = k
    · simp [hk]
    · simp only [mapGet, if_neg hk] at h
      simp [ih h]

theorem mapGet_mem {α β : Type} [DecidableEq α] {m : List (α × β)} {k : α} {v : β}
    (h : mapGet m k = some v) : (k, v) ∈ m := by
  induction m with
  | nil => simp [mapGet] at h
  | cons kv rest ih =>
    by_cases hk : kv.1 = k
    · simp only [mapGet, if_pos hk] at h
      cases kv
      simp_all
    · simp only [mapGet, if_neg hk] at h
      exact List.mem_cons_of_mem _ (ih h)

theorem mapGet_mapDelete_self {α β : Type} [DecidableEq α] (m : List (α × β)) (k : α)
    (hnd : (m.map Prod.fst).Nodup) : mapGet (mapDelete m k) k = none := by
  induction m with
  | nil => rfl
  | cons kv rest ih =>
    simp only [List.map_cons, List.nodup_cons] at hnd
    by_cases h : kv.1 = k
    · subst h
      simp only [mapDelete, if_pos rfl]
      exact mapGet_eq_none_of_not_mem hnd.1
    · simp [mapDelete, h, mapGet, ih hnd.2]

theorem mapGet_mapDelete_ne {α β : Type} [DecidableEq α] (m : List (α × β)) (k k' : α)
    (h : k ≠ k') : mapGet (mapDelete m k) k' = mapGet m k' := by
  induction m with
  | nil => simp [mapDelete]
  | cons kv rest ih =>
    by_cases hk : kv.1 = k
    · subst hk
      have h1 : kv.1 ≠ k' := h
      simp [mapDelete, mapGet, h1]
    · simp only [mapDelete, if_neg hk]
      by_cases hk' : kv.1 = k'
      · simp [mapGet, hk']
      · simp [mapGet, hk', ih]

theorem keys_mapSet {α β : Type} [DecidableEq α] (m : List (α × β)) (k : α) (v : β) :
    (mapSet m k v).map Prod.fst =
      if k ∈ m.map Prod.fst then m.map Prod.fst else m.map Prod.fst ++ [k] := by
  induction m with
  | nil => simp [mapSet]
  | cons kv rest ih =>
    by_cases h : kv.1 = k
    · subst h
      simp [mapSet]
    · have h1 : ¬ k = kv.1 := fun hc => h hc.symm
      simp only [mapSet, if_neg h, List.map_cons, ih, List.mem_cons]
      by_cases hm : k ∈ rest.map Prod.fst
      · simp [hm, h1]
      · simp [hm, h1]

theorem mapSet_keys_nodup {α β : Type} [DecidableEq α] (m : List (α × β)) (k : α) (v : β)
    (hnd : (m.map Prod.fst).Nodup) : ((mapSet m k v).map Prod.fst).Nodup := by
  rw [keys_mapSet]
  by_cases hm : k ∈ m.map Prod.fst
  · simpa [hm] using hnd
  · simp only [hm, if_false]
    simp [List.nodup_append, hnd, hm]

theorem digitChar_inj : ∀ i < 10, ∀ j < 10, digitChar i = digitChar j → i = j := by
  decide

theorem natDigits_of_lt {n : Nat} (h : n < 10) : natDigits n = [digitChar n] := by
  rw [natDigits]
  simp [h]

theorem natDigits_of_ge {n : Nat} (h : ¬ n < 10) :
    natDigits n = natDigits (n / 10) ++ [digitChar (n % 10)] := by
  conv_lhs => rw [natDigits]
  simp [h]

theorem natDigits_ne_nil (n : Nat) : natDigits n ≠ [] := by
  by_cases h : n < 10
  · rw [natDigits_of_lt h]
    simp
  · rw [natDigits_of_ge h]
    simp

theorem natDigits_inj : ∀ m n : Nat, natDigits m = natDigits n → m = n := by
  intro m
  induction m using Nat.strong_induction_on with
  | _ m ih =>
    intro n h
    by_cases hm : m < 10
    · by_cases hn : n < 10
      · rw [natDigits_of_lt hm, natDigits_of_lt hn] at h
        simp only [List.cons.injEq] at h
        exact digitChar_inj m hm n hn h.1
      · rw [natDigits_of_lt hm, natDigits_of_ge hn] at h
        have hlen := congrArg List.length h
        simp only [List.length_cons, List.length_nil, List.length_append] at hlen
        have hpos : 0 < (natDigits (n / 10)).length :=
          List.length_pos.mpr (natDigits_ne_nil (n / 10))
        omega
    · by_cases hn : n < 10
      · rw [natDigits_of_ge hm, natDigits_of_lt hn] at h
        have hlen := congrArg List.length h
        simp only [List.length_cons, List.length_nil, List.length_append] at hlen
        have hpos : 0 < (natDigits (m / 10)).length :=
          List.length_pos.mpr (natDigits_ne_nil (m / 10))
        omega
      · rw [natDigits_of_ge hm, natDigits_of_ge hn] at h
        have h2 := congrArg List.reverse h
        simp only [List.reverse_append, List.reverse_cons, List.reverse_nil, List.nil_append,
          List.cons_append, List.cons.injEq] at h2
        have hdig : m % 10 = n % 10 :=
          digitChar_inj _ (Nat.mod_lt _ (by omega)) _ (Nat.mod_lt _ (by omega)) h2.1
        have hrec : natDigits (m / 10) = natDigits (n / 10) := by
          have := congrArg List.reverse h2.2
          simpa using this
        have hdiv : m / 10 = n / 10 :=
          ih (m / 10) (Nat.div_lt_self (by omega) (by omega)) _ hrec
        omega

theorem natDigitsGo_spec : ∀ fuel n acc, n ≤ fuel →
    natDigitsGo fuel n acc = natDigits n ++ acc := by
  intro fuel
  induction fuel with
  | zero =>
    intro n acc hn
    have h0 : n = 0 := Nat.le_zero.mp hn
    subst h0
    rw [natDigitsGo, natDigits_of_lt (by omega)]
    rfl
  | succ fuel ih =>
    intro n acc hn
    by_cases h : n < 10
    · rw [natDigitsGo, if_pos h, natDigits_of_lt h]
      rfl
    · rw [natDigitsGo, if_neg h, ih (n / 10) _ (by omega), natDigits_of_ge h,
        List.append_assoc]
      rfl

theorem natToStr_eq (n : Nat) : natToStr n = String.mk (natDigits n) := by
  rw [natToStr, natDigitsGo_spec n n [] (Nat.le_refl n), List.append_nil]

theorem natToStr_inj : ∀ m n : Nat, natToStr m = natToStr n → m = n := by
  intro m n h
  apply natDigits_inj
  rw [natToStr_eq, natToStr_eq] at h
  have := congrArg String.data h
  simpa using this

theorem getDir_setDir_self (st : VfsStore) (i : Nat) (n : DirNode) :
    getDir (setDir st i n) i = some n := by
  simp [getDir, setDir, mapGet_mapSet_self]

theorem getDir_setDir_ne (st : VfsStore) (i j : Nat) (n : DirNode) (h : i ≠ j) :
    getDir (setDir st i n) j = getDir st j := by
  simp [getDir, setDir, mapGet_mapSet_ne _ _ _ _ h]

theorem mem_keys_of_getDir_isSome {st : VfsStore} {i : Nat} (h : (getDir st i).isSome) :
    i ∈ st.dirs.map Prod.fst :=
  mem_keys_of_mapGet_isSome h

theorem NodeExtends.refl (n : DirNode) : NodeExtends n n :=
  ⟨rfl, rfl, rfl, rfl, fun _ _ h => h⟩

theorem nodeExtends_trans {a b c : DirNode} (h1 : NodeExtends a b) (h2 : NodeExtends b c) :
    NodeExtends a c :=
  ⟨h2.1.trans h1.1, h2.2.1.trans h1.2.1, h2.2.2.1.trans h1.2.2.1, h2.2.2.2.1.trans h1.2.2.2.1,
    fun k v h => h2.2.2.2.2 k v (h1.2.2.2.2 k v h)⟩

theorem nextId_addChildDir (st : VfsStore) (cur : Nat) (node : DirNode) (part : String) :
    (addChildDir st cur node part).nextId = st.nextId + 1 := rfl

theorem getDir_addChildDir_new (st : VfsStore) (cur : Nat) (node : DirNode) (part : String) :
    getDir (addChildDir st cur node part) st.nextId = some (newChildDir cur node.path part) := by
  simp [addChildDir, getDir, mapGet_mapSet_self]

theorem getDir_addChildDir_cur (st : VfsStore) (cur : Nat) (node : DirNode) (part : String)
    (hne : cur ≠ st.nextId) :
    getDir (addChildDir st cur node part) cur =
      some { node with subDirs := mapSet node.subDirs part st.nextId } := by
  simp only [addChildDir, getDir]
  rw [mapGet_mapSet_ne _ _ _ _ (fun hc => hne hc.symm)]
  exact getDir_setDir_self st cur _

theorem getDir_addChildDir_other (st : VfsStore) (cur i : Nat) (node : DirNode) (part : String)
    (h1 : i ≠ cur) (h2 : i ≠ st.nextId) :
    getDir (addChildDir st cur node part) i = getDir st i := by
  simp only [addChildDir, getDir]
  rw [mapGet_mapSet_ne _ _ _ _ (fun hc => h2 hc.symm)]
  exact getDir_setDir_ne st cur i _ (fun hc => h1 hc.symm)

theorem freshIds_addChildDir {st : VfsStore} {cur : Nat} {node : DirNode} {part : String}
    (hf : FreshIds st) (hcurmem : cur ∈ st.dirs.map Prod.fst) :
    FreshIds (addChildDir st cur node part) := by
  intro i hi
  simp only [addChildDir, setDir] at hi ⊢
  rw [keys_mapSet] at hi
  have hkeys1 : (mapSet st.dirs cur { node with subDirs := mapSet node.subDirs part st.nextId
      }).map Prod.fst = st.dirs.map Prod.fst := by
    rw [keys_mapSet, if_pos hcurmem]
  rw [hkeys1] at hi
  by_cases hmem : st.nextId ∈ st.dirs.map Prod.fst
  · rw [if_pos hmem] at hi
    have := hf i hi
    omega
  · rw [if_neg hmem] at hi
    rcases List.mem_append.mp hi with hi | hi
    · have := hf i hi
      omega
    · simp only [List.mem_singleton] at hi
      omega

theorem addChildDir_extends {st : VfsStore} {cur : Nat} {node : DirNode} {part : String}
    (hcur : getDir st cur = some node) (hchild : mapGet node.subDirs part = none)
    (hf : FreshIds st) :
    ∀ i n, getDir st i = some n →
      ∃ n', getDir (addChildDir st cur node part) i = some n' ∧ NodeExtends n n' := by
  intro i n h
  have hilt : i < st.nextId := hf i (mem_keys_of_getDir_isSome (by simp [h]))
  have hin : i ≠ st.nextId := Nat.ne_of_lt hilt
  by_cases hic : i = cur
  · subst hic
    rw [hcur] at h
    injection h with h
    subst h
    refine ⟨_, getDir_addChildDir_cur st i node part hin, rfl, rfl, rfl, rfl, fun k v hkv => ?_⟩
    have hkp : k ≠ part := by
      intro hc
      subst hc
      rw [hchild] at hkv
      exact absurd hkv (by simp)
    simpa [mapGet_mapSet_ne _ _ _ _ (fun hc => hkp hc.symm)] using hkv
  · exact ⟨n, (getDir_addChildDir_other st cur i node part hic hin).trans h, NodeExtends.refl n⟩

/-- Store evolution via addSubDirectoryAux: the id counter only grows,
freshness is preserved, and every existing directory object survives
with at most extra child entries. -/
theorem addSubDirectoryAux_preserves : ∀ (parts : List String) (st : VfsStore) (cur : Nat),
    FreshIds st →
    FreshIds (addSubDirectoryAux st cur parts).1 ∧
    st.nextId ≤ (addSubDirectoryAux st cur parts).1.nextId ∧
    ∀ i n, getDir st i = some n → ∃ n',
      getDir (addSubDirectoryAux st cur parts).1 i = some n' ∧ NodeExtends n n' := by
  intro parts
  induction parts with
  | nil =>
    intro st cur hf
    exact ⟨hf, Nat.le_refl _, fun i n h => ⟨n, h, NodeExtends.refl n⟩⟩
  | cons part rest ih =>
    intro st cur hf
    cases hcur : getDir st cur with
    | none =>
      simp only [addSubDirectoryAux, hcur]
      exact ⟨hf, Nat.le_refl _, fun i n h => ⟨n, h, NodeExtends.refl n⟩⟩
    | some node =>
      cases hchild : mapGet node.subDirs part with
      | some child =>
        simp only [addSubDirectoryAux, hcur, hchild]
        exact ih st child hf
      | none =>
        simp only [addSubDirectoryAux, hcur, hchild]
        have hcurmem : cur ∈ st.dirs.map Prod.fst :=
          mem_keys_of_getDir_isSome (by simp [hcur])
        have hf2 : FreshIds (addChildDir st cur node part) := freshIds_addChildDir hf hcurmem
        have hrest := ih (addChildDir st cur node part) st.nextId hf2
        refine ⟨hrest.1, ?_, ?_⟩
        · have h2 : st.nextId ≤ (addChildDir st cur node part).nextId := by
            rw [nextId_addChildDir]
            omega
          exact Nat.le_trans h2 hrest.2.1
        · intro i n h
          rcases addChildDir_extends hcur hchild hf i n h with ⟨n2, hn2, hext2⟩
          rcases hrest.2.2 i n2 hn2 with ⟨n3, hn3, hext3⟩
          exact ⟨n3, hn3, nodeExtends_trans hext2 hext3⟩

/-- Idempotence of the addSubDirectory walk: running the same
segment list again over the updated store changes nothing and resolves
to the same terminal directory id. -/
theorem addSubDirectoryAux_idem : ∀ (parts : List String) (st : VfsStore) (cur : Nat),
    FreshIds st →
    addSubDirectoryAux (addSubDirectoryAux st cur parts).1 cur parts =
      addSubDirectoryAux st cur parts := by
  intro parts
  induction parts with
  | nil =>
    intro st cur hf
    rfl
  | cons part rest ih =>
    intro st cur hf
    cases hcur : getDir st cur with
    | none =>
      simp only [addSubDirectoryAux, hcur]
    | some node =>
      cases hchild : mapGet node.subDirs part with
      | some child =>
        simp only [addSubDirectoryAux, hcur, hchild]
        obtain ⟨-, -, hpres⟩ := addSubDirectoryAux_preserves rest st child hf
        rcases hpres cur node hcur with ⟨node2, hnode2, hext⟩
        have hchild2 : mapGet node2.subDirs part = some child :=
          hext.2.2.2.2 part child hchild
        simp only [addSubDirectoryAux, hnode2, hchild2]
        exact ih st child hf
      | none =>
        simp only [addSubDirectoryAux, hcur, hchild]
        have hcurmem : cur ∈ st.dirs.map Prod.fst :=
          mem_keys_of_getDir_isSome (by simp [hcur])
        have hne : cur ≠ st.nextId := Nat.ne_of_lt (hf cur hcurmem)
        have hf2 : FreshIds (addChildDir st cur node part) := freshIds_addChildDir hf hcurmem
        have hcur2 : getDir (addChildDir st cur node part) cur =
            some { node with subDirs := mapSet node.subDirs part st.nextId } :=
          getDir_addChildDir_cur st cur node part hne
        obtain ⟨-, -, hpres⟩ :=
          addSubDirectoryAux_preserves rest (addChildDir st cur node part) st.nextId hf2
        rcases hpres cur _ hcur2 with ⟨node2, hnode2, hext⟩
        have hchild2 : mapGet node2.subDirs part = some st.nextId :=
          hext.2.2.2.2 part st.nextId (by simpa using mapGet_mapSet_self node.subDirs part st.nextId)
        simp only [addSubDirectoryAux, hnode2, hchild2]
        exact ih (addChildDir st cur node part) st.nextId hf2

theorem candName_inj (base ext : String) : ∀ i j, candName base ext i = candName base ext j →
    i = j := by
  intro i j h
  apply natToStr_inj
  have hd := congrArg String.data h
  simp only [candName] at hd
  have hd2 : (base ++ "(").data ++ ((natToStr i).data ++ (")." ++ ext).data) =
      (base ++ "(").data ++ ((natToStr j).data ++ (")." ++ ext).data) := by
    simpa [List.append_assoc] using hd
  have hd3 := List.append_cancel_left hd2
  have hd4 := List.append_cancel_right hd3
  cases hi : natToStr i with
  | mk di =>
    cases hj : natToStr j with
    | mk dj =>
      rw [hi, hj] at hd4
      simp only at hd4
      rw [hd4]

theorem mintLoop_succ (files : List (String × VFile)) (base ext : String)
    (counter fuel : Nat) :
    mintLoop files base ext counter (fuel + 1) =
      if mapHas files (candName base ext counter) then mintLoop files base ext (counter + 1) fuel
      else candName base ext counter := rfl

theorem mintLoop_least (files : List (String × VFile)) (base ext : String) :
    ∀ fuel counter,
      (∃ k, counter ≤ k ∧ k < counter + fuel + 1 ∧ ¬ mapHas files (candName base ext k)) →
      ∃ n, counter ≤ n ∧ ¬ mapHas files (candName base ext n) ∧
        (∀ m, counter ≤ m → m < n → mapHas files (candName base ext m)) ∧
        mintLoop files base ext counter fuel = candName base ext n := by
  intro fuel
  induction fuel with
  | zero =>
    intro counter hex
    rcases hex with ⟨k, hk1, hk2, hk3⟩
    have hkc : k = counter := by omega
    subst hkc
    exact ⟨k, Nat.le_refl _, hk3, fun m h1 h2 => absurd (Nat.lt_of_le_of_lt h1 h2)
      (Nat.lt_irrefl _), rfl⟩
  | succ fuel ih =>
    intro counter hex
    by_cases hh : mapHas files (candName base ext counter)
    · have hex2 : ∃ k, counter + 1 ≤ k ∧ k < counter + 1 + fuel + 1 ∧
          ¬ mapHas files (candName base ext k) := by
        rcases hex with ⟨k, hk1, hk2, hk3⟩
        refine ⟨k, ?_, by omega, hk3⟩
        rcases Nat.eq_or_lt_of_le hk1 with h | h
        · exact absurd hh (h ▸ hk3)
        · omega
      rcases ih (counter + 1) hex2 with ⟨n, hn1, hn2, hn3, hn4⟩
      refine ⟨n, by omega, hn2, ?_, ?_⟩
      · intro m h1 h2
        rcases Nat.eq_or_lt_of_le h1 with h | h
        · exact h ▸ hh
        · exact hn3 m h h2
      · rw [mintLoop_succ, if_pos hh]
        exact hn4
    · exact ⟨counter, Nat.le_refl _, hh, fun m h1 h2 => absurd (Nat.lt_of_le_of_lt h1 h2)
        (Nat.lt_irrefl _), by rw [mintLoop_succ, if_neg hh]⟩

theorem exists_free_counter (files : List (String × VFile)) (base ext : String) :
    ∃ k, 1 ≤ k ∧ k < files.length + 2 ∧ ¬ mapHas files (candName base ext k) := by
  by_contra hcon
  push_neg at hcon
  have hall : ∀ i < files.length + 1, candName base ext (i + 1) ∈ files.map Prod.fst := by
    intro i hi
    have := hcon (i + 1) (by omega) (by omega)
    exact mem_keys_of_mapGet_isSome this
  set L : List String := (List.range (files.length + 1)).map
    (fun i => candName base ext (i + 1)) with hL
  have hnd : L.Nodup := by
    rw [hL]
    refine List.Nodup.map ?_ (List.nodup_range _)
    intro i j hij
    have := candName_inj base ext (i + 1) (j + 1) hij
    omega
  have hsub : ∀ x ∈ L, x ∈ files.map Prod.fst := by
    intro x hx
    rw [hL] at hx
    rcases List.mem_map.mp hx with ⟨i, hi, hix⟩
    exact hix ▸ hall i (List.mem_range.mp hi)
  have hcard1 : L.toFinset.card = files.length + 1 := by
    rw [List.toFinset_card_of_nodup hnd, hL]
    simp
  have hcard2 : L.toFinset.card ≤ (files.map Prod.fst).toFinset.card := by
    apply Finset.card_le_card
    intro x hx
    rw [List.mem_toFinset] at hx
    rw [List.mem_toFinset]
    exact hsub x hx
  have hcard3 : (files.map Prod.fst).toFinset.card ≤ files.length := by
    calc (files.map Prod.fst).toFinset.card ≤ (files.map Prod.fst).length :=
          List.toFinset_card_le _
    _ = files.length := by simp
  omega

/-- The minted copy name, with fuel one beyond the map size, is the
least free counter name from one up. -/
theorem mint_spec (files : List (String × VFile)) (base ext : String) :
    ∃ n, 1 ≤ n ∧ ¬ mapHas files (candName base ext n) ∧
      (∀ m, 1 ≤ m → m < n → mapHas files (candName base ext m)) ∧
      mintLoop files base ext 1 (files.length + 1) = candName base ext n := by
  apply mintLoop_least
  rcases exists_free_counter files base ext with ⟨k, h1, h2, h3⟩
  exact ⟨k, h1, by omega, h3⟩

/-! ## Move and copy lemmas -/
/-- Behavior of moveFile between two distinct directories when the
target already holds a file under the moved file's name and no explicit
new name is given: the existing destination entry is deleted, the clone
is registered under the same name, and the source loses its entry. -/
theorem moveFile_cross_spec (st : VfsStore) (srcId tgtId : Nat) (f g : VFile)
    (src tgt : DirNode)
    (hne : srcId ≠ tgtId)
    (hsrc : getDir st srcId = some src) (htgt : getDir st tgtId = some tgt)
    (hg : mapGet tgt.files f.name = some g) (hgname : g.name = f.name) :
    ∃ st2, moveFile st srcId f tgtId none =
        (some (mkVFile f.name f.content tgt.path), st2) ∧
      getDir st2 tgtId = some ⟨tgt.name, tgt.path, tgt.parentDir, tgt.subDirs,
        mapSet (mapDelete tgt.files f.name) f.name (mkVFile f.name f.content tgt.path)⟩ ∧
      getDir st2 srcId = some ⟨src.name, src.path, src.parentDir, src.subDirs,
        mapDelete src.files f.name⟩ ∧
      (∀ j, j ≠ srcId → j ≠ tgtId → getDir st2 j = getDir st j) ∧
      st2.nextId = st.nextId := by
  have hhasf : mapHas tgt.files f.name = true := by
    rw [mapHas, hg]
    rfl
  have hgetA : getDir (setDir st tgtId ⟨tgt.name, tgt.path, tgt.parentDir, tgt.subDirs,
      mapDelete tgt.files f.name⟩) srcId = some src := by
    rw [getDir_setDir_ne st tgtId srcId _ (fun hc => hne hc.symm)]
    exact hsrc
  refine ⟨setDir (setDir (setDir st tgtId ⟨tgt.name, tgt.path, tgt.parentDir, tgt.subDirs,
      mapDelete tgt.files f.name⟩) srcId ⟨src.name, src.path, src.parentDir, src.subDirs,
      mapDelete src.files f.name⟩) tgtId ⟨tgt.name, tgt.path, tgt.parentDir, tgt.subDirs,
      mapSet (mapDelete tgt.files f.name) f.name (mkVFile f.name f.content tgt.path)⟩,
    ?_, ?_, ?_, ?_, ?_⟩
  · simp only [moveFile, htgt, hg, hgname, removeFile, hhasf, hgetA,
      getDir_setDir_ne _ srcId tgtId _ hne, getDir_setDir_self, cloneFile, Option.getD,
      if_true, mkVFile]
  · rw [getDir_setDir_self]
  · rw [getDir_setDir_ne _ tgtId srcId _ (fun hc => hne hc.symm), getDir_setDir_self]
  · intro j hj1 hj2
    rw [getDir_setDir_ne _ tgtId j _ (fun hc => hj2 hc.symm),
      getDir_setDir_ne _ srcId j _ (fun hc => hj1 hc.symm),
      getDir_setDir_ne _ tgtId j _ (fun hc => hj2 hc.symm)]
  · rfl

/-- Behavior of moveFile into the file's own directory with no new
name: after deleting and re-adding, every name resolves to the same
file as before, and the returned clone equals the moved file when the
file's stored path agrees with its location. -/
theorem moveFile_self_spec (st : VfsStore) (tgtId : Nat) (f : VFile) (tgt : DirNode)
    (htgt : getDir st tgtId = some tgt)
    (hg : mapGet tgt.files f.name = some f)
    (hpath : f.path = posixJoin (tgt.path ++ "/") f.name) :
    ∃ st2, moveFile st tgtId f tgtId none = (some f, st2) ∧
      getDir st2 tgtId = some ⟨tgt.name, tgt.path, tgt.parentDir, tgt.subDirs,
        mapSet (mapDelete (mapDelete tgt.files f.name) f.name) f.name f⟩ ∧
      (∀ j, j ≠ tgtId → getDir st2 j = getDir st j) ∧
      st2.nextId = st.nextId := by
  have hclone : mkVFile f.name f.content tgt.path = f := by
    unfold mkVFile
    rw [← hpath]
  have hhasf : mapHas tgt.files f.name = true := by
    rw [mapHas, hg]
    rfl
  have hgetA : getDir (setDir st tgtId ⟨tgt.name, tgt.path, tgt.parentDir, tgt.subDirs,
      mapDelete tgt.files f.name⟩) tgtId = some ⟨tgt.name, tgt.path, tgt.parentDir,
      tgt.subDirs, mapDelete tgt.files f.name⟩ := getDir_setDir_self st tgtId _
  refine ⟨setDir (setDir (setDir st tgtId ⟨tgt.name, tgt.path, tgt.parentDir, tgt.subDirs,
      mapDelete tgt.files f.name⟩) tgtId ⟨tgt.name, tgt.path, tgt.parentDir, tgt.subDirs,
      mapDelete (mapDelete tgt.files f.name) f.name⟩) tgtId ⟨tgt.name, tgt.path,
      tgt.parentDir, tgt.subDirs, mapSet (mapDelete (mapDelete tgt.files f.name) f.name)
      f.name f⟩, ?_, ?_, ?_, ?_⟩
  · simp only [moveFile, htgt, hg, removeFile, hhasf, hgetA, getDir_setDir_self,
      cloneFile, Option.getD, hclone, if_true]
  · rw [getDir_setDir_self]
  · intro j hj
    rw [getDir_setDir_ne _ tgtId j _ (fun hc => hj hc.symm),
      getDir_setDir_ne _ tgtId j _ (fun hc => hj hc.symm),
      getDir_setDir_ne _ tgtId j _ (fun hc => hj hc.symm)]
  · rfl

/-- Behavior of copyFile: the clone is registered under a destination
name that is free in the target before the call (the requested name
when free, otherwise the minted least-counter name), so no existing
entry is touched. -/
theorem copyFile_spec (st : VfsStore) (f : VFile) (tgtId : Nat) (newName : Option String)
    (tgt : DirNode) (htgt : getDir st tgtId = some tgt) :
    ∃ clone st2,
      copyFile st f tgtId newName = (some clone, st2) ∧
      clone.content = f.content ∧
      clone.path = posixJoin (tgt.path ++ "/") clone.name ∧
      mapHas tgt.files clone.name = false ∧
      getDir st2 tgtId = some ⟨tgt.name, tgt.path, tgt.parentDir, tgt.subDirs,
        mapSet tgt.files clone.name clone⟩ ∧
      (∀ j, j ≠ tgtId → getDir st2 j = getDir st j) ∧
      st2.nextId = st.nextId ∧
      (mapHas tgt.files (newName.getD f.name) = false → clone.name = newName.getD f.name) ∧
      (mapHas tgt.files (newName.getD f.name) = true → ∃ n, 1 ≤ n ∧
        clone.name = candName (copyBaseName (newName.getD f.name)) (getExtension f.name) n ∧
        (∀ m, 1 ≤ m → m < n →
          mapHas tgt.files (candName (copyBaseName (newName.getD f.name))
            (getExtension f.name) m) = true)) := by
  by_cases h0 : mapHas tgt.files (newName.getD f.name) = true
  · rcases mint_spec tgt.files (copyBaseName (newName.getD f.name)) (getExtension f.name)
      with ⟨n, hn1, hn2, hn3, hn4⟩
    refine ⟨cloneFile (candName (copyBaseName (newName.getD f.name)) (getExtension f.name) n)
      f tgt.path,
      setDir st tgtId ⟨tgt.name, tgt.path, tgt.parentDir, tgt.subDirs, mapSet tgt.files
        (cloneFile (candName (copyBaseName (newName.getD f.name)) (getExtension f.name) n)
          f tgt.path).name
        (cloneFile (candName (copyBaseName (newName.getD f.name)) (getExtension f.name) n)
          f tgt.path)⟩,
      ?_, ?_, ?_, ?_, ?_, ?_, ?_, ?_, ?_⟩
    · simp only [copyFile, htgt, h0, hn4, if_true]
    · rfl
    · rfl
    · simpa [cloneFile, mkVFile] using hn2
    · rw [getDir_setDir_self]
    · intro j hj
      rw [getDir_setDir_ne _ tgtId j _ (fun hc => hj hc.symm)]
    · rfl
    · intro hc
      rw [h0] at hc
      exact absurd hc (by simp)
    · intro _
      exact ⟨n, hn1, rfl, hn3⟩
  · have h0f : mapHas tgt.files (newName.getD f.name) = false := by
      simpa using h0
    refine ⟨cloneFile (newName.getD f.name) f tgt.path,
      setDir st tgtId ⟨tgt.name, tgt.path, tgt.parentDir, tgt.subDirs, mapSet tgt.files
        (cloneFile (newName.getD f.name) f tgt.path).name
        (cloneFile (newName.getD f.name) f tgt.path)⟩,
      ?_, ?_, ?_, ?_, ?_, ?_, ?_, ?_, ?_⟩
    · simp only [copyFile, htgt, h0f, Bool.false_eq_true, if_false]
    · rfl
    · rfl
    · simpa [cloneFile, mkVFile] using h0f
    · rw [getDir_setDir_self]
    · intro j hj
      rw [getDir_setDir_ne _ tgtId j _ (fun hc => hj hc.symm)]
    · rfl
    · intro _
      rfl
    · intro hc
      rw [hc] at h0f
      exact absurd h0f (by simp)

/-! ## Lookup and removal lemmas -/

/-- When the normalized search path has no nonempty segments, the
walk resolves to the receiver itself; findSubDirectory then returns the
receiver exactly when the raw search path equals the receiver's path
field, and a not-found answer otherwise. -/
theorem findSubDirectory_self (st : VfsStore) (selfId : Nat) (self : DirNode)
    (hself : getDir st selfId = some self) (searchPath : String)
    (hparts : splitFilter (posixNormalize searchPath) = []) :
    findSubDirectory st selfId searchPath =
      if self.path = searchPath then some selfId else none := by
  simp only [findSubDirectory, hself, hparts, walkSubDirs]
  by_cases hp : self.path = searchPath
  · simp [hp]
  · simp [hp, hself]

/-- Behavior of removeSubDirectory on a resolvable path with at least
one segment whose resolved directory has a parent holding it: without
force a non-empty directory is refused with no change; with force the
entry is deleted from the parent. -/
theorem removeSubDirectory_spec (st : VfsStore) (selfId : Nat) (dirPath : String)
    (curId pid : Nat) (cur parent : DirNode) (last : String)
    (hwalk : walkSubDirs st selfId (splitFilter dirPath) = some curId)
    (hcur : getDir st curId = some cur)
    (hlast : (splitFilter dirPath).getLast? = some last)
    (hpid : cur.parentDir = some pid)
    (hparent : getDir st pid = some parent)
    (hmem : mapHas parent.subDirs last = true) :
    (¬ (cur.files = [] ∧ cur.subDirs = []) →
      removeSubDirectory st selfId dirPath false = (false, st)) ∧
    removeSubDirectory st selfId dirPath true =
      (true, setDir st pid ⟨parent.name, parent.path, parent.parentDir,
        mapDelete parent.subDirs last, parent.files⟩) := by
  constructor
  · intro hne
    simp only [removeSubDirectory, hwalk, hcur]
    have hcond : ¬ false = true ∧ (cur.files.length > 0 ∨ cur.subDirs.length > 0) := by
      refine ⟨by simp, ?_⟩
      by_cases hfe : cur.files = []
      · by_cases hse : cur.subDirs = []
        · exact absurd ⟨hfe, hse⟩ hne
        · right
          exact List.length_pos.mpr hse
      · left
        exact List.length_pos.mpr hfe
    rw [if_pos hcond]
  · simp only [removeSubDirectory, hwalk, hcur, hlast, hpid, hparent, hmem]
    simp

theorem sameShapes_setDir_files (st : VfsStore) (i : Nat) (dir : DirNode)
    (hget : getDir st i = some dir) (files2 : List (String × VFile)) :
    SameShapes st (setDir st i ⟨dir.name, dir.path, dir.parentDir, dir.subDirs, files2⟩) := by
  intro j
  by_cases hij : i = j
  · subst hij
    rw [hget, getDir_setDir_self]
    rfl
  · rw [getDir_setDir_ne _ _ _ _ hij]

theorem sameShapes_trans {a b c : VfsStore} (h1 : SameShapes a b) (h2 : SameShapes b c) :
    SameShapes a c := fun i => (h1 i).trans (h2 i)

theorem walkSubDirs_shape_eq {st st' : VfsStore} (h : SameShapes st st') :
    ∀ (parts : List String) (cur : Nat),
      walkSubDirs st' cur parts = walkSubDirs st cur parts := by
  intro parts
  induction parts with
  | nil =>
    intro cur
    rfl
  | cons part rest ih =>
    intro cur
    have hcur := h cur
    cases hst : getDir st cur with
    | none =>
      rw [hst] at hcur
      cases hst' : getDir st' cur with
      | none => simp [walkSubDirs, hst, hst']
      | some n' =>
        rw [hst'] at hcur
        simp at hcur
    | some n =>
      rw [hst] at hcur
      cases hst' : getDir st' cur with
      | none =>
        rw [hst'] at hcur
        simp at hcur
      | some n' =>
        rw [hst'] at hcur
        simp only [Option.map_some', Option.some.injEq] at hcur
        have hsub : n'.subDirs = n.subDirs := by
          have := congrArg (fun q : String × String × Option Nat × List (String × Nat) =>
            q.2.2.2) hcur
          simpa [dirShape] using this.symm
        simp only [walkSubDirs, hst, hst', hsub]
        cases hchild : mapGet n.subDirs part with
        | none => rfl
        | some child => exact ih child

theorem findSubDirectory_shape_eq {st st' : VfsStore} (h : SameShapes st st')
    (selfId : Nat) (searchPath : String) :
    findSubDirectory st' selfId searchPath = findSubDirectory st selfId searchPath := by
  have hself := h selfId
  cases hst : getDir st selfId with
  | none =>
    rw [hst] at hself
    cases hst' : getDir st' selfId with
    | none => simp [findSubDirectory, hst, hst']
    | some n' =>
      rw [hst'] at hself
      simp at hself
  | some self =>
    rw [hst] at hself
    cases hst' : getDir st' selfId with
    | none =>
      rw [hst'] at hself
      simp at hself
    | some self' =>
      rw [hst'] at hself
      simp only [Option.map_some', Option.some.injEq] at hself
      have hname : self'.name = self.name := by
        have := congrArg (fun q : String × String × Option Nat × List (String × Nat) => q.1)
          hself
        simpa [dirShape] using this.symm
      have hpath : self'.path = self.path := by
        have := congrArg (fun q : String × String × Option Nat × List (String × Nat) =>
          q.2.1) hself
        simpa [dirShape] using this.symm
      have hparent : self'.parentDir = self.parentDir := by
        have := congrArg (fun q : String × String × Option Nat × List (String × Nat) =>
          q.2.2.1) hself
        simpa [dirShape] using this.symm
      simp only [findSubDirectory, hst, hst', hname, hpath, hparent,
        walkSubDirs_shape_eq h]
      cases hwalk : walkSubDirs st selfId (splitFilter (posixNormalize searchPath)) with
      | none => rfl
      | some resolvedId =>
        have hres := h resolvedId
        cases hr : getDir st resolvedId with
        | none =>
          rw [hr] at hres
          cases hr' : getDir st' resolvedId with
          | none => simp [hr, hr']
          | some m' =>
            rw [hr'] at hres
            simp at hres
        | some m =>
          rw [hr] at hres
          cases hr' : getDir st' resolvedId with
          | none =>
            rw [hr'] at hres
            simp at hres
          | some m' =>
            rw [hr'] at hres
            simp only [Option.map_some', Option.some.injEq] at hres
            have hmn : m'.name = m.name := by
              have := congrArg
                (fun q : String × String × Option Nat × List (String × Nat) => q.1) hres
              simpa [dirShape] using this.symm
            have hmp : m'.path = m.path := by
              have := congrArg
                (fun q : String × String × Option Nat × List (String × Nat) => q.2.1) hres
              simpa [dirShape] using this.symm
            have hmq : m'.parentDir = m.parentDir := by
              have := congrArg
                (fun q : String × String × Option Nat × List (String × Nat) => q.2.2.1) hres
              simpa [dirShape] using this.symm
            simp [hr, hr', hmn, hmp, hmq]

theorem mapGet_isSome_of_mem_keys {α β : Type} [DecidableEq α] {m : List (α × β)} {k : α}
    (h : k ∈ m.map Prod.fst) : (mapGet m k).isSome := by
  induction m with
  | nil => simp at h
  | cons kv rest ih =>
    by_cases hk : kv.1 = k
    · simp [mapGet, hk]
    · simp only [List.map_cons, List.mem_cons] at h
      rcases h with h | h
      · exact absurd h.symm hk
      · simp [mapGet, hk, ih h]

theorem mapGet_isSome_congr_keys {α β : Type} [DecidableEq α] (m m' : List (α × β)) (k : α)
    (h : m.map Prod.fst = m'.map Prod.fst) :
    (mapGet m k).isSome = (mapGet m' k).isSome := by
  by_cases hk : k ∈ m.map Prod.fst
  · rw [mapGet_isSome_of_mem_keys hk, mapGet_isSome_of_mem_keys (h ▸ hk)]
  · rw [mapGet_eq_none_of_not_mem hk, mapGet_eq_none_of_not_mem (h ▸ hk)]

/-- File locations are unchanged by store updates that keep directory
shapes and file-map keys (content-only file mutations). -/
theorem findFileLoc_shape_eq {st st' : VfsStore} (hsh : SameShapes st st')
    (hkeys : ∀ i n n', getDir st i = some n → getDir st' i = some n' →
      n.files.map Prod.fst = n'.files.map Prod.fst)
    (selfId : Nat) (p : String) :
    findFileLoc st' selfId p = findFileLoc st selfId p := by
  cases hlast : (splitFilter (posixNormalize p)).getLast? with
  | none => simp only [findFileLoc, hlast]
  | some fileName =>
    by_cases hpre : (splitFilter (posixNormalize p)).dropLast.length = 0
    · simp only [findFileLoc, hlast, if_pos hpre]
      have hd := hsh selfId
      cases h1 : getDir st selfId with
      | none =>
        rw [h1] at hd
        cases h2 : getDir st' selfId with
        | none => rfl
        | some n' =>
          rw [h2] at hd
          simp at hd
      | some n =>
        rw [h1] at hd
        cases h2 : getDir st' selfId with
        | none =>
          rw [h2] at hd
          simp at hd
        | some n' =>
          rw [h2] at hd
          have hk := hkeys selfId n n' h1 h2
          have hiso := mapGet_isSome_congr_keys n.files n'.files fileName hk
          have hstep :
              (if (mapGet n'.files fileName).isSome = true
                then some (selfId, fileName) else (none : Option (Nat × String))) =
              (if (mapGet n.files fileName).isSome = true
                then some (selfId, fileName) else none) := by
            rw [hiso]
          exact hstep
    · simp only [findFileLoc, hlast, if_neg hpre]
      rw [findSubDirectory_shape_eq hsh]
      cases hcd : findSubDirectory st selfId
          (joinSlash (splitFilter (posixNormalize p)).dropLast) with
      | none => rfl
      | some dirId =>
        show (match getDir st' dirId with
            | none => none
            | some dir =>
              if (mapGet dir.files fileName).isSome = true
                then some (dirId, fileName) else none) =
          (match getDir st dirId with
            | none => none
            | some dir =>
              if (mapGet dir.files fileName).isSome = true
                then some (dirId, fileName) else none)
        have hd := hsh dirId
        cases h1 : getDir st dirId with
        | none =>
          rw [h1] at hd
          cases h2 : getDir st' dirId with
          | none => rfl
          | some n' =>
            rw [h2] at hd
            simp at hd
        | some n =>
          rw [h1] at hd
          cases h2 : getDir st' dirId with
          | none =>
            rw [h2] at hd
            simp at hd
          | some n' =>
            rw [h2] at hd
            have hk := hkeys dirId n n' h1 h2
            have hiso := mapGet_isSome_congr_keys n.files n'.files fileName hk
            have hstep :
                (if (mapGet n'.files fileName).isSome = true
                  then some (dirId, fileName) else (none : Option (Nat × String))) =
                (if (mapGet n.files fileName).isSome = true
                  then some (dirId, fileName) else none) := by
              rw [hiso]
            exact hstep

/-! ## Sorting, key provenance and key uniqueness of glob results -/

theorem sortByLenInsert_perm (x : String) (l : List String) :
    (sortByLenInsert x l).Perm (x :: l) := by
  induction l with
  | nil => exact List.Perm.refl _
  | cons y ys ih =>
    simp only [sortByLenInsert]
    by_cases h : x.length ≤ y.length
    · rw [if_pos h]
    · rw [if_neg h]
      exact (ih.cons y).trans (List.Perm.swap x y ys)

theorem sortByLenInsert_sorted (x : String) (l : List String)
    (hs : List.Sorted (fun a b : String => a.length ≤ b.length) l) :
    List.Sorted (fun a b : String => a.length ≤ b.length) (sortByLenInsert x l) := by
  induction l with
  | nil => simp [sortByLenInsert]
  | cons y ys ih =>
    simp only [sortByLenInsert]
    by_cases h : x.length ≤ y.length
    · rw [if_pos h]
      rw [List.sorted_cons]
      refine ⟨?_, hs⟩
      intro b hb
      rcases List.mem_cons.mp hb with rfl | hb
      · exact h
      · exact Nat.le_trans h ((List.sorted_cons.mp hs).1 b hb)
    · rw [if_neg h]
      rw [List.sorted_cons]
      constructor
      · intro b hb
        have hb2 : b ∈ x :: ys := (sortByLenInsert_perm x ys).mem_iff.mp hb
        rcases List.mem_cons.mp hb2 with rfl | hb2
        · exact Nat.le_of_not_le h
        · exact (List.sorted_cons.mp hs).1 b hb2
      · exact ih (List.sorted_cons.mp hs).2

theorem sortByLen_perm (l : List String) : (sortByLen l).Perm l := by
  induction l with
  | nil => exact List.Perm.refl _
  | cons x xs ih =>
    exact (sortByLenInsert_perm x (sortByLen xs)).trans (ih.cons x)

theorem sortByLen_sorted (l : List String) :
    List.Sorted (fun a b : String => a.length ≤ b.length) (sortByLen l) := by
  induction l with
  | nil => simp [sortByLen]
  | cons x xs ih => exact sortByLenInsert_sorted x (sortByLen xs) ih

theorem foldl_preserve {α β : Type} (Q : β → Prop) (f : β → α → β) :
    ∀ (l : List α) (b : β), Q b → (∀ b2 a, a ∈ l → Q b2 → Q (f b2 a)) →
      Q (List.foldl f b l) := by
  intro l
  induction l with
  | nil =>
    intro b hb _
    exact hb
  | cons a as ih =>
    intro b hb hf
    exact ih (f b a) (hf b a (List.mem_cons_self a as) hb)
      (fun b2 a2 ha2 => hf b2 a2 (List.mem_cons_of_mem a ha2))

theorem convertToFsMapAux_prov (st : VfsStore) (exts : List String) :
    ∀ (fuel dirId : Nat) (m : List (String × String)),
      (∀ k ∈ m.map Prod.fst, FileKeyProv st exts k) →
      ∀ k ∈ (convertToFsMapAux st exts fuel dirId m).map Prod.fst, FileKeyProv st exts k := by
  intro fuel
  induction fuel with
  | zero =>
    intro dirId m hm
    exact hm
  | succ fuel ih =>
    intro dirId m hm
    show ∀ k ∈ ((match getDir st dirId with
      | none => m
      | some dir =>
        dir.files.foldl (fun (acc : List (String × String)) (kv : String × VFile) =>
          if exts.contains ("." ++ getExtension kv.2.name) then
            mapSet acc kv.2.path kv.2.content
          else acc)
          (dir.subDirs.foldl
            (fun (acc : List (String × String)) (kv : String × Nat) =>
              convertToFsMapAux st exts fuel kv.2 acc) m)).map
        Prod.fst), FileKeyProv st exts k
    cases hd : getDir st dirId with
    | none => exact hm
    | some dir =>
      refine foldl_preserve
        (fun (mm : List (String × String)) => ∀ k ∈ mm.map Prod.fst, FileKeyProv st exts k)
        _ dir.files _ ?_ ?_
      · exact foldl_preserve _ _ dir.subDirs m hm (fun mm kv _ hmm => ih kv.2 mm hmm)
      · intro mm kv hkv hmm
        by_cases hc : exts.contains ("." ++ getExtension kv.2.name) = true
        · rw [if_pos hc]
          intro k hk
          rw [keys_mapSet] at hk
          by_cases hmem : kv.2.path ∈ mm.map Prod.fst
          · rw [if_pos hmem] at hk
            exact hmm k hk
          · rw [if_neg hmem] at hk
            rcases List.mem_append.mp hk with hk | hk
            · exact hmm k hk
            · have hkeq : k = kv.2.path := by simpa using hk
              exact ⟨dirId, dir, kv, hd, hkv, hkeq, hc⟩
        · rw [if_neg hc]
          exact hmm

theorem convertToFsMapAux_nodup (st : VfsStore) (exts : List String) :
    ∀ (fuel dirId : Nat) (m : List (String × String)),
      (m.map Prod.fst).Nodup →
      ((convertToFsMapAux st exts fuel dirId m).map Prod.fst).Nodup := by
  intro fuel
  induction fuel with
  | zero =>
    intro dirId m hm
    exact hm
  | succ fuel ih =>
    intro dirId m hm
    show ((match getDir st dirId with
      | none => m
      | some dir =>
        dir.files.foldl (fun (acc : List (String × String)) (kv : String × VFile) =>
          if exts.contains ("." ++ getExtension kv.2.name) then
            mapSet acc kv.2.path kv.2.content
          else acc)
          (dir.subDirs.foldl
            (fun (acc : List (String × String)) (kv : String × Nat) =>
              convertToFsMapAux st exts fuel kv.2 acc) m)).map
        Prod.fst).Nodup
    cases hd : getDir st dirId with
    | none => exact hm
    | some dir =>
      refine foldl_preserve
        (fun (mm : List (String × String)) => (mm.map Prod.fst).Nodup) _ dir.files _ ?_ ?_
      · exact foldl_preserve _ _ dir.subDirs m hm (fun mm kv _ hmm => ih kv.2 mm hmm)
      · intro mm kv _ hmm
        by_cases hc : exts.contains ("." ++ getExtension kv.2.name) = true
        · rw [if_pos hc]
          exact mapSet_keys_nodup mm kv.2.path kv.2.content hmm
        · rw [if_neg hc]
          exact hmm

theorem fsMapOf_prov (st : TSVFSState) :
    ∀ k ∈ (fsMapOf st).map Prod.fst, FileKeyProv st.store SUPPORTED_EXTENSIONS k :=
  convertToFsMapAux_prov st.store SUPPORTED_EXTENSIONS (st.store.dirs.length + 1) st.rootId []
    (by intro k hk; simp at hk)

theorem fsMapOf_nodup (st : TSVFSState) : ((fsMapOf st).map Prod.fst).Nodup :=
  convertToFsMapAux_nodup st.store SUPPORTED_EXTENSIONS (st.store.dirs.length + 1) st.rootId []
    (by simp)

/-- On an anchored pattern the matching-entry pass is the plain filter
of the key list by the regex test. -/
theorem globF_entries_anchored (re : GlobRegex) (m : List (String × String)) :
    (m.filterMap (fun kv => if regexTest re kv.1 then some kv.1 else none)) =
      (m.map Prod.fst).filter (fun k => regexTest re k) := by
  induction m with
  | nil => rfl
  | cons kv rest ih =>
    simp only [List.filterMap_cons, List.map_cons, List.filter_cons]
    by_cases h : regexTest re kv.1 = true
    · rw [if_pos h, if_pos h, ih]
    · rw [if_neg h, if_neg h, ih]

/-- Every successful glob result list is sorted by ascending path
length. -/
theorem globF_sorted (st : TSVFSState) (pat : String) (res : List String)
    (h : globF st pat = some res) :
    List.Sorted (fun a b : String => a.length ≤ b.length) res := by
  rw [globF] at h
  cases hre : globToRegExpM pat with
  | none =>
    rw [hre] at h
    simp at h
  | some re =>
    rw [hre] at h
    simp only [Option.some.injEq] at h
    rw [← h]
    exact sortByLen_sorted _

/-- Every successful glob result on an anchored (slash-leading) pattern
is duplicate-free: the flush map has unique keys and the result is a
permutation of a filtered sublist of them. -/
theorem globF_nodup_anchored (st : TSVFSState) (pat : String) (res : List String)
    (hanch : pat.data.head? = some '/') (h : globF st pat = some res) : res.Nodup := by
  rw [globF] at h
  cases hre : globToRegExpM pat with
  | none =>
    rw [hre] at h
    simp at h
  | some re =>
    rw [hre] at h
    simp only [hanch, if_pos, Option.some.injEq] at h
    rw [← h]
    refine ((sortByLen_perm _).nodup_iff).mpr ?_
    rw [globF_entries_anchored]
    exact (fsMapOf_nodup st).filter _

/-- Every path a successful glob returns is the (possibly
separator-stripped) stored path of some file of the tree whose name
carries an allowlisted extension. -/
theorem globF_mem_prov (st : TSVFSState) (pat : String) (res : List String) (p : String)
    (h : globF st pat = some res) (hp : p ∈ res) :
    ∃ i dir kv, getDir st.store i = some dir ∧ kv ∈ dir.files ∧
      SUPPORTED_EXTENSIONS.contains ("." ++ getExtension kv.2.name) = true ∧
      p = (if pat.data.head? = some '/' then kv.2.path else removeSlashes kv.2.path) := by
  rw [globF] at h
  cases hre : globToRegExpM pat with
  | none =>
    rw [hre] at h
    simp at h
  | some re =>
    rw [hre] at h
    simp only [Option.some.injEq] at h
    rw [← h] at hp
    have hp2 := (sortByLen_perm _).mem_iff.mp hp
    rcases List.mem_filterMap.mp hp2 with ⟨kv, hkv, hsome⟩
    have hkmem : kv.1 ∈ (fsMapOf st).map Prod.fst := List.mem_map_of_mem Prod.fst hkv
    rcases fsMapOf_prov st kv.1 hkmem with ⟨i, dir, fkv, hdir, hfkv, hkeq, hext⟩
    refine ⟨i, dir, fkv, hdir, hfkv, hext, ?_⟩
    by_cases hh : pat.data.head? = some '/'
    · simp only [hh, if_pos] at hsome ⊢
      by_cases ht : regexTest re kv.1 = true
      · rw [if_pos ht] at hsome
        rw [← hkeq]
        exact (Option.some.injEq _ _ ▸ hsome).symm
      · rw [if_neg ht] at hsome
        exact absurd hsome (by simp)
    · simp only [hh, if_neg, if_false] at hsome ⊢
      by_cases ht : regexTest re (removeSlashes kv.1) = true
      · rw [if_pos ht] at hsome
        rw [← hkeq]
        exact (Option.some.injEq _ _ ▸ hsome).symm
      · rw [if_neg ht] at hsome
        exact absurd hsome (by simp)

/-! ## Map-restoration and resolution-stability helpers -/

/-- Deleting a present key twice and re-inserting its old value leaves
every lookup unchanged (the observable no-op of a self-move). -/
theorem mapGet_restore {α β : Type} [DecidableEq α] (m : List (α × β)) (k : α) (v : β)
    (h : mapGet m k = some v) :
    ∀ x, mapGet (mapSet (mapDelete (mapDelete m k) k) k v) x = mapGet m x := by
  intro x
  by_cases hx : x = k
  · subst hx
    rw [mapGet_mapSet_self, h]
  · rw [mapGet_mapSet_ne _ _ _ _ (fun hc => hx hc.symm),
      mapGet_mapDelete_ne _ _ _ (fun hc => hx hc.symm),
      mapGet_mapDelete_ne _ _ _ (fun hc => hx hc.symm)]

/-- Under a file-content-only store edit, a path that resolved to a
directory and file name keeps resolving to the same location, up to the
final presence test in the (possibly changed) file map. -/
theorem findFileLoc_shape_resolve {st st' : VfsStore} (hsh : SameShapes st st')
    {selfId : Nat} {p : String} {dirId : Nat} {key : String}
    (h : findFileLoc st selfId p = some (dirId, key)) :
    findFileLoc st' selfId p =
      (match getDir st' dirId with
        | none => none
        | some dir => if (mapGet dir.files key).isSome then some (dirId, key) else none) := by
  cases hlast : (splitFilter (posixNormalize p)).getLast? with
  | none =>
    rw [findFileLoc] at h
    simp only [hlast] at h
    exact absurd h (by simp)
  | some fileName =>
    by_cases hpre : (splitFilter (posixNormalize p)).dropLast.length = 0
    · rw [findFileLoc] at h
      simp only [hlast, if_pos hpre] at h
      simp only [findFileLoc, hlast, if_pos hpre]
      cases h1 : getDir st selfId with
      | none =>
        rw [h1] at h
        exact absurd h (by simp)
      | some dir =>
        rw [h1] at h
        have h2 : (if (mapGet dir.files fileName).isSome = true
            then some (selfId, fileName) else (none : Option (Nat × String))) =
            some (dirId, key) := h
        by_cases hs : (mapGet dir.files fileName).isSome = true
        · rw [if_pos hs] at h2
          have hd : dirId = selfId ∧ key = fileName := by
            have h3 := (Option.some.injEq _ _).mp h2
            exact ⟨(congrArg Prod.fst h3).symm, (congrArg Prod.snd h3).symm⟩
          rcases hd with ⟨rfl, rfl⟩
          rfl
        · rw [if_neg hs] at h2
          exact absurd h2 (by simp)
    · rw [findFileLoc] at h
      simp only [hlast, if_neg hpre] at h
      simp only [findFileLoc, hlast, if_neg hpre]
      rw [findSubDirectory_shape_eq hsh]
      cases hcd : findSubDirectory st selfId
          (joinSlash (splitFilter (posixNormalize p)).dropLast) with
      | none =>
        rw [hcd] at h
        exact absurd h (by simp)
      | some cdir =>
        rw [hcd] at h
        have h0 : (match getDir st cdir with
            | none => none
            | some dir =>
              if (mapGet dir.files fileName).isSome = true
                then some (cdir, fileName) else (none : Option (Nat × String))) =
            some (dirId, key) := h
        cases h1 : getDir st cdir with
        | none =>
          rw [h1] at h0
          exact absurd h0 (by simp)
        | some dir =>
          rw [h1] at h0
          have h2 : (if (mapGet dir.files fileName).isSome = true
              then some (cdir, fileName) else (none : Option (Nat × String))) =
              some (dirId, key) := h0
          by_cases hs : (mapGet dir.files fileName).isSome = true
          · rw [if_pos hs] at h2
            have hd : dirId = cdir ∧ key = fileName := by
              have h3 := (Option.some.injEq _ _).mp h2
              exact ⟨(congrArg Prod.fst h3).symm, (congrArg Prod.snd h3).symm⟩
            rcases hd with ⟨rfl, rfl⟩
            rfl
          · rw [if_neg hs] at h2
            exact absurd h2 (by simp)

/-! ## The write-then-delete-then-finalize pipeline -/

theorem deleteWins_core (st : TSVFSState) (p c : String) (dirId : Nat) (key : String)
    (dir : DirNode) (f : VFile) (c0 : String) (d : Disc)
    (hroot : ¬ st.root = "/")
    (hledger : st.watchedFilesMap = [])
    (hloc : findFileLoc st.store st.rootId p = some (dirId, key))
    (hdir : getDir st.store dirId = some dir)
    (hfile : mapGet dir.files key = some f)
    (hnd : (dir.files.map Prod.fst).Nodup)
    (hmodtag : jsIncludes p FileStateModified = false)
    (hfp : findFileLoc st.store st.rootId f.path = some (dirId, key))
    (hjoin : posixJoin st.root p = posixJoin st.root f.path)
    (hnorm : posixNormalize (posixJoin st.root p) = posixJoin st.root p)
    (hdisc : mapGet d (posixJoin st.root f.path) = some (FsEntry.file c0))
    (hdnd : (d.map Prod.fst).Nodup) :
    (deleteFileF (writeFileF st p c).2 p).1 = true ∧
    ∃ st3 d3, finalizeF (deleteFileF (writeFileF st p c).2 p).2 d = some (st3, d3) ∧
      st3.watchedFilesMap = [] ∧
      discExists d3 (posixJoin st.root p) = false := by
  have hwr : writeFileF st p c =
      (some { f with content := c },
       ⟨st.root,
        setDir st.store dirId ⟨dir.name, dir.path, dir.parentDir, dir.subDirs,
          mapSet dir.files key { f with content := c }⟩,
        st.rootId,
        [(FileStateModified, f.path)]⟩) := by
    simp only [writeFileF, hloc, hdir, hfile, hledger]
    rfl
  have hdir1 : getDir (setDir st.store dirId
      ⟨dir.name, dir.path, dir.parentDir, dir.subDirs,
        mapSet dir.files key { f with content := c }⟩) dirId =
      some ⟨dir.name, dir.path, dir.parentDir, dir.subDirs,
        mapSet dir.files key { f with content := c }⟩ :=
    getDir_setDir_self _ _ _
  have hsh1 : SameShapes st.store (setDir st.store dirId
      ⟨dir.name, dir.path, dir.parentDir, dir.subDirs,
        mapSet dir.files key { f with content := c }⟩) :=
    sameShapes_setDir_files st.store dirId dir hdir _
  have hloc1 : findFileLoc (setDir st.store dirId
      ⟨dir.name, dir.path, dir.parentDir, dir.subDirs,
        mapSet dir.files key { f with content := c }⟩) st.rootId p = some (dirId, key) := by
    rw [findFileLoc_shape_resolve hsh1 hloc, hdir1]
    have hs : (mapGet (mapSet dir.files key { f with content := c }) key).isSome = true := by
      rw [mapGet_mapSet_self]
      rfl
    show (if (mapGet (mapSet dir.files key { f with content := c }) key).isSome = true
        then some (dirId, key) else (none : Option (Nat × String))) = some (dirId, key)
    rw [if_pos hs]
  have hkey : ((([(FileStateModified, f.path)] : List (String × String)).map
      Prod.fst).find? (fun k => jsIncludes p k)).getD p = p := by
    simp only [List.map_cons, List.map_nil, List.find?]
    rw [hmodtag]
    rfl
  have hhas : mapHas (mapSet dir.files key { f with content := c }) key = true := by
    rw [mapHas, mapGet_mapSet_self]
    rfl
  have hledeq : mapSet [(FileStateModified, f.path)] FileStateDeleted p =
      [(FileStateModified, f.path), (FileStateDeleted, p)] := by
    simp only [mapSet, if_neg (show ¬ FileStateModified = FileStateDeleted from by decide)]
  have hdel : deleteFileF ⟨st.root,
      setDir st.store dirId ⟨dir.name, dir.path, dir.parentDir, dir.subDirs,
        mapSet dir.files key { f with content := c }⟩,
      st.rootId, [(FileStateModified, f.path)]⟩ p =
      (true,
       ⟨st.root,
        setDir (setDir st.store dirId ⟨dir.name, dir.path, dir.parentDir, dir.subDirs,
            mapSet dir.files key { f with content := c }⟩) dirId
          ⟨dir.name, dir.path, dir.parentDir, dir.subDirs,
            mapDelete (mapSet dir.files key { f with content := c }) key⟩,
        st.rootId,
        [(FileStateModified, f.path), (FileStateDeleted, p)]⟩) := by
    simp only [deleteFileF]
    rw [hkey, hloc1]
    simp only [removeFile]
    rw [hdir1]
    simp only [hhas, if_true, hledeq]
  have hdir2 : getDir (setDir (setDir st.store dirId
      ⟨dir.name, dir.path, dir.parentDir, dir.subDirs,
        mapSet dir.files key { f with content := c }⟩) dirId
      ⟨dir.name, dir.path, dir.parentDir, dir.subDirs,
        mapDelete (mapSet dir.files key { f with content := c }) key⟩) dirId =
      some ⟨dir.name, dir.path, dir.parentDir, dir.subDirs,
        mapDelete (mapSet dir.files key { f with content := c }) key⟩ :=
    getDir_setDir_self _ _ _
  have hsh2 : SameShapes st.store (setDir (setDir st.store dirId
      ⟨dir.name, dir.path, dir.parentDir, dir.subDirs,
        mapSet dir.files key { f with content := c }⟩) dirId
      ⟨dir.name, dir.path, dir.parentDir, dir.subDirs,
        mapDelete (mapSet dir.files key { f with content := c }) key⟩) :=
    sameShapes_trans hsh1 (sameShapes_setDir_files _ dirId _ hdir1 _)
  have hnone : mapGet (mapDelete (mapSet dir.files key { f with content := c }) key) key
      = none :=
    mapGet_mapDelete_self _ _ (mapSet_keys_nodup dir.files key _ hnd)
  have hfpS2 : findFileLoc (setDir (setDir st.store dirId
      ⟨dir.name, dir.path, dir.parentDir, dir.subDirs,
        mapSet dir.files key { f with content := c }⟩) dirId
      ⟨dir.name, dir.path, dir.parentDir, dir.subDirs,
        mapDelete (mapSet dir.files key { f with content := c }) key⟩) st.rootId f.path
      = none := by
    rw [findFileLoc_shape_resolve hsh2 hfp, hdir2]
    show (if (mapGet (mapDelete (mapSet dir.files key { f with content := c }) key)
        key).isSome = true then some (dirId, key) else (none : Option (Nat × String))) = none
    rw [hnone]
    rfl
  have hlocS2 : findFileLoc (setDir (setDir st.store dirId
      ⟨dir.name, dir.path, dir.parentDir, dir.subDirs,
        mapSet dir.files key { f with content := c }⟩) dirId
      ⟨dir.name, dir.path, dir.parentDir, dir.subDirs,
        mapDelete (mapSet dir.files key { f with content := c }) key⟩) st.rootId p
      = none := by
    rw [findFileLoc_shape_resolve hsh2 hloc, hdir2]
    show (if (mapGet (mapDelete (mapSet dir.files key { f with content := c }) key)
        key).isSome = true then some (dirId, key) else (none : Option (Nat × String))) = none
    rw [hnone]
    rfl
  have hfindfp : findFile (setDir (setDir st.store dirId
      ⟨dir.name, dir.path, dir.parentDir, dir.subDirs,
        mapSet dir.files key { f with content := c }⟩) dirId
      ⟨dir.name, dir.path, dir.parentDir, dir.subDirs,
        mapDelete (mapSet dir.files key { f with content := c }) key⟩) st.rootId f.path
      = none := by
    simp only [findFile, hfpS2]
  have hfindp : findFile (setDir (setDir st.store dirId
      ⟨dir.name, dir.path, dir.parentDir, dir.subDirs,
        mapSet dir.files key { f with content := c }⟩) dirId
      ⟨dir.name, dir.path, dir.parentDir, dir.subDirs,
        mapDelete (mapSet dir.files key { f with content := c }) key⟩) st.rootId p
      = none := by
    simp only [findFile, hlocS2]
  have hex : discExists d (posixJoin st.root f.path) = true := by
    rw [discExists, mapHas, hdisc]
    rfl
  have hex2 : discExists d (posixJoin st.root p) = true := by
    rw [hjoin]
    exact hex
  have hrm : discRmSync d (posixNormalize (posixJoin st.root p)) =
      some (mapDelete d (posixJoin st.root f.path)) := by
    rw [hnorm, hjoin, discRmSync, hdisc]
  have hrun : updateFilesOnDiscAux st.root (setDir (setDir st.store dirId
      ⟨dir.name, dir.path, dir.parentDir, dir.subDirs,
        mapSet dir.files key { f with content := c }⟩) dirId
      ⟨dir.name, dir.path, dir.parentDir, dir.subDirs,
        mapDelete (mapSet dir.files key { f with content := c }) key⟩) st.rootId
      [(FileStateModified, f.path), (FileStateDeleted, p)] d =
      some (mapDelete d (posixJoin st.root f.path)) := by
    have e1 : (FileStateModified = FileStateNew) = False := eq_false (by decide)
    have e2 : (FileStateDeleted = FileStateNew) = False := eq_false (by decide)
    have e3 : (FileStateDeleted = FileStateModified) = False := eq_false (by decide)
    have e4 : (FileStateModified = FileStateDeleted) = False := eq_false (by decide)
    simp only [updateFilesOnDiscAux, hfindfp, hfindp, e1, e2, e3, e4, false_or, or_false,
      or_true, true_or, if_true, if_false, Option.map_none', Option.getD_none,
      Option.isSome_none, Bool.false_eq_true, hex, hex2, hrm]
  have hfin : finalizeF ⟨st.root,
      setDir (setDir st.store dirId ⟨dir.name, dir.path, dir.parentDir, dir.subDirs,
          mapSet dir.files key { f with content := c }⟩) dirId
        ⟨dir.name, dir.path, dir.parentDir, dir.subDirs,
          mapDelete (mapSet dir.files key { f with content := c }) key⟩,
      st.rootId,
      [(FileStateModified, f.path), (FileStateDeleted, p)]⟩ d =
      some (⟨st.root,
        setDir (setDir st.store dirId ⟨dir.name, dir.path, dir.parentDir, dir.subDirs,
            mapSet dir.files key { f with content := c }⟩) dirId
          ⟨dir.name, dir.path, dir.parentDir, dir.subDirs,
            mapDelete (mapSet dir.files key { f with content := c }) key⟩,
        st.rootId, []⟩,
        mapDelete d (posixJoin st.root f.path)) := by
    simp only [finalizeF]
    rw [if_pos hroot, hrun]
  constructor
  · simp only [hwr, hdel]
  · refine ⟨⟨st.root,
      setDir (setDir st.store dirId ⟨dir.name, dir.path, dir.parentDir, dir.subDirs,
          mapSet dir.files key { f with content := c }⟩) dirId
        ⟨dir.name, dir.path, dir.parentDir, dir.subDirs,
          mapDelete (mapSet dir.files key { f with content := c }) key⟩,
      st.rootId, []⟩,
      mapDelete d (posixJoin st.root f.path), ?_, rfl, ?_⟩
    · simp only [hwr, hdel]
      exact hfin
    · rw [hjoin, discExists, mapHas, mapGet_mapDelete_self d _ hdnd]
      rfl

/-! ## Import-resolution lemmas -/

/-- The filter of resolveIdentifiersToImport drops every identifier
whose name is already a key of the imported-identifier map, for any
requested module: with an import record present, the conjunct pair
isNewImport and not-sameModule collapses to sameModule and
not-sameModule, which no boolean satisfies. -/
theorem resolveIdentifiersToImport_drops_imported (identifiers : List IIdentifierM)
    (imported : List (String × IImportM)) (modulePath : String) :
    ∀ i ∈ resolveIdentifiersToImport identifiers imported modulePath,
      mapGet imported i.name = none := by
  intro i hi
  rw [resolveIdentifiersToImport, List.mem_filter] at hi
  cases hinfo : mapGet imported i.name with
  | none => rfl
  | some info =>
    exfalso
    have hp := hi.2
    simp only [hinfo] at hp
    cases hsm : decide (trimQuotes info.moduleName = trimQuotes modulePath) with
    | true => simp [hsm] at hp
    | false => simp [hsm] at hp

/-- The statement loop with an empty surviving-identifier list never
rewrites anything and reports no update. -/
theorem updateFirstMatchingImport_nil (modulePath : String) :
    ∀ statements, updateFirstMatchingImport [] modulePath statements = (statements, false) := by
  intro statements
  induction statements with
  | nil => rfl
  | cons stmt rest ih =>
    simp only [updateFirstMatchingImport]
    by_cases hc : (isImportDeclM stmt && stmtModuleMatches modulePath stmt) = true
    · rw [if_pos hc]
      cases stmt with
      | importDecl clause m =>
        cases hnb : clause.namedBindings with
        | some elements => simp [hnb]
        | none => simp [hnb]
      | otherStatement t => rfl
    · rw [if_neg hc, ih]

/-- When every requested identifier is already imported under its name,
addImportDeclaration leaves the unit unchanged: the resolution filter
empties the request, the in-place update misses, and the
fresh-declaration branch is gated on a nonempty surviving list. -/
theorem addImportDeclarationM_noop_of_imported (statements : List StatementM)
    (identifiers : List IIdentifierM) (modulePath : String) (isDefault : Bool)
    (h : ∀ i ∈ identifiers,
      (mapGet (findImportedIdentifiers statements) i.name).isSome = true) :
    addImportDeclarationM statements identifiers modulePath isDefault = statements := by
  have hres : resolveIdentifiersToImport identifiers (findImportedIdentifiers statements)
      modulePath = [] := by
    rw [List.eq_nil_iff_forall_not_mem]
    intro i hi
    have h1 := resolveIdentifiersToImport_drops_imported identifiers
      (findImportedIdentifiers statements) modulePath i hi
    have h2 : i ∈ identifiers := by
      rw [resolveIdentifiersToImport, List.mem_filter] at hi
      exact hi.1
    have h3 := h i h2
    rw [h1] at h3
    exact absurd h3 (by simp)
  simp only [addImportDeclarationM, hres, updateFirstMatchingImport_nil]
  simp

/-! ## Object-literal member update lemmas -/

/-- A member list holding no property assignment under the target key
passes through the update map untouched. -/
theorem updateObjectLiteralMemberM_unmatched (props : List OLMember) (t v : String)
    (h : ∀ pos pend value, OLMember.propertyAssignment pos pend t value ∉ props) :
    updateObjectLiteralMemberM props t v = props := by
  induction props with
  | nil => rfl
  | cons m rest ih =>
    simp only [updateObjectLiteralMemberM, List.map_cons]
    have h1 : updateObjectLiteralMemberOne t v m = m := by
      cases m with
      | propertyAssignment pos pend pname value =>
        simp only [updateObjectLiteralMemberOne]
        by_cases hneg : pos < 0 ∨ pend < 0
        · rw [if_pos hneg]
        · rw [if_neg hneg]
          have hpn : ¬ pname = t := by
            intro hc
            subst hc
            exact h pos pend value (List.mem_cons_self _ _)
          rw [if_neg hpn]
      | otherMember pos pend text => rfl
    rw [h1]
    exact congrArg (List.cons m)
      (ih (fun pos pend value hm => h pos pend value (List.mem_cons_of_mem _ hm)))

/-! ## The claims -/

/-- C1: the resolution filter of addImportDeclaration drops every
requested identifier whose name is already imported from any module,
so a unit holding import of mock from module is left unchanged both by
a same-module aliased re-request (the claim expects a second aliased
specifier) and by a different-module aliased request (the claim expects
a separate new declaration); the exact re-request is the claimed no-op,
and only a genuinely new name extends the declaration. -/
theorem C1_already_imported_requests_are_dropped :
    (∀ (statements : List StatementM) (identifiers : List IIdentifierM)
      (modulePath : String) (isDefault : Bool),
      (∀ i ∈ identifiers,
        (mapGet (findImportedIdentifiers statements) i.name).isSome = true) →
      addImportDeclarationM statements identifiers modulePath isDefault = statements) ∧
    addImportDeclarationM mockUnit [⟨"mock", none⟩] "module" false = mockUnit ∧
    addImportDeclarationM mockUnit [⟨"mock", some "anotherMock"⟩] "module" false = mockUnit ∧
    addImportDeclarationM mockUnit [⟨"mock", some "anotherMock"⟩] "another/module" false
      = mockUnit ∧
    addImportDeclarationM mockUnit [⟨"AnotherMock", none⟩] "module" false =
      [StatementM.importDecl ⟨none, some [⟨none, "mock"⟩, ⟨none, "AnotherMock"⟩]⟩
        "module"] :=
  ⟨addImportDeclarationM_noop_of_imported, by decide, by decide, by decide, by decide⟩

theorem C1_witness :
    addImportDeclarationM mockUnit [⟨"mock", some "x"⟩] "m2" true = mockUnit :=
  C1_already_imported_requests_are_dropped.1 mockUnit [⟨"mock", some "x"⟩] "m2" true
    (by decide)

/-- C2 counterexample: at the path modified.ts (which contains the
modified ledger tag), write-then-delete-then-finalize does not delete:
deleteFile resolves the tag instead of the path and returns false, and
finalize flushes the written content so the backing store keeps the
file. -/
theorem C2_counterexample :
    (deleteFileF (writeFileF c5State "modified.ts" "y").2 "modified.ts").1 = false ∧
    (finalizeF (deleteFileF (writeFileF c5State "modified.ts" "y").2 "modified.ts").2
        [("/proj/modified.ts", FsEntry.file "x")]).map
      (fun r => (mapGet r.2 "/proj/modified.ts", r.1.watchedFilesMap)) =
      some (some (FsEntry.file "y"), []) := by decide

/-- C2 (amended): for a path that resolves to a stored file and does
not contain the modified lifecycle tag as a substring, writeFile then
deleteFile in one batch over an empty ledger followed by an
argumentless finalize succeeds, leaves the backing store with no file
at the joined path, and clears the ledger. -/
theorem C2_write_delete_finalize_delete_wins
    (st : TSVFSState) (p c : String) (dirId : Nat) (key : String)
    (dir : DirNode) (f : VFile) (c0 : String) (d : Disc)
    (hroot : ¬ st.root = "/")
    (hledger : st.watchedFilesMap = [])
    (hloc : findFileLoc st.store st.rootId p = some (dirId, key))
    (hdir : getDir st.store dirId = some dir)
    (hfile : mapGet dir.files key = some f)
    (hnd : (dir.files.map Prod.fst).Nodup)
    (hmodtag : jsIncludes p FileStateModified = false)
    (hfp : findFileLoc st.store st.rootId f.path = some (dirId, key))
    (hjoin : posixJoin st.root p = posixJoin st.root f.path)
    (hnorm : posixNormalize (posixJoin st.root p) = posixJoin st.root p)
    (hdisc : mapGet d (posixJoin st.root f.path) = some (FsEntry.file c0))
    (hdnd : (d.map Prod.fst).Nodup) :
    (deleteFileF (writeFileF st p c).2 p).1 = true ∧
    ∃ st3 d3, finalizeF (deleteFileF (writeFileF st p c).2 p).2 d = some (st3, d3) ∧
      st3.watchedFilesMap = [] ∧
      discExists d3 (posixJoin st.root p) = false :=
  deleteWins_core st p c dirId key dir f c0 d hroot hledger hloc hdir hfile hnd hmodtag
    hfp hjoin hnorm hdisc hdnd

theorem C2_witness :
    (deleteFileF (writeFileF c2WitnessState "a.ts" "y").2 "a.ts").1 = true ∧
    ∃ st3 d3, finalizeF (deleteFileF (writeFileF c2WitnessState "a.ts" "y").2 "a.ts").2
        c2WitnessDisc = some (st3, d3) ∧
      st3.watchedFilesMap = [] ∧
      discExists d3 (posixJoin c2WitnessState.root "a.ts") = false :=
  C2_write_delete_finalize_delete_wins c2WitnessState "a.ts" "y" 0 "a.ts"
    ⟨"/proj", "/", none, [], [("a.ts", ⟨"a.ts", "x", "/a.ts"⟩)]⟩
    ⟨"a.ts", "x", "/a.ts"⟩ "x" c2WitnessDisc
    (by decide) (by decide) (by decide) (by decide) (by decide) (by decide) (by decide)
    (by decide) (by decide) (by decide) (by decide) (by decide)

/-- C3: moving a file into a directory already holding a same-named
file with no explicit new name replaces that destination entry with the
moved clone, whose content is the moved content; and a self-move with
no new name returns the unchanged file and leaves every file lookup of
the directory, and every other directory, unchanged. -/
theorem C3_moveFile_overwrites_and_self_move_noop :
    (∀ (st : VfsStore) (srcId tgtId : Nat) (f g : VFile) (src tgt : DirNode),
      srcId ≠ tgtId → getDir st srcId = some src → getDir st tgtId = some tgt →
      mapGet tgt.files f.name = some g → g.name = f.name →
      ∃ st2 tgt2, moveFile st srcId f tgtId none =
          (some (mkVFile f.name f.content tgt.path), st2) ∧
        (mkVFile f.name f.content tgt.path).content = f.content ∧
        getDir st2 tgtId = some tgt2 ∧
        mapGet tgt2.files f.name = some (mkVFile f.name f.content tgt.path)) ∧
    (∀ (st : VfsStore) (tgtId : Nat) (f : VFile) (tgt : DirNode),
      getDir st tgtId = some tgt →
      mapGet tgt.files f.name = some f →
      f.path = posixJoin (tgt.path ++ "/") f.name →
      ∃ st2 tgt2, moveFile st tgtId f tgtId none = (some f, st2) ∧
        getDir st2 tgtId = some tgt2 ∧
        (∀ name, mapGet tgt2.files name = mapGet tgt.files name) ∧
        (∀ j, j ≠ tgtId → getDir st2 j = getDir st j)) := by
  constructor
  · intro st srcId tgtId f g src tgt hne hsrc htgt hg hgname
    rcases moveFile_cross_spec st srcId tgtId f g src tgt hne hsrc htgt hg hgname with
      ⟨st2, hmv, htgt2, hsrc2, hother, hnext⟩
    refine ⟨st2, _, hmv, rfl, htgt2, ?_⟩
    exact mapGet_mapSet_self _ _ _
  · intro st tgtId f tgt htgt hg hpath
    rcases moveFile_self_spec st tgtId f tgt htgt hg hpath with
      ⟨st2, hmv, htgt2, hother, hnext⟩
    refine ⟨st2, _, hmv, htgt2, ?_, hother⟩
    exact mapGet_restore tgt.files f.name f hg

theorem C3_witness :
    (∃ st2 tgt2, moveFile c3Store 0 (⟨"a.ts", "SRC", "/a.ts"⟩ : VFile) 1 none =
        (some (mkVFile "a.ts" "SRC" "/sub"), st2) ∧
      (mkVFile "a.ts" "SRC" "/sub").content = "SRC" ∧
      getDir st2 1 = some tgt2 ∧
      mapGet tgt2.files "a.ts" = some (mkVFile "a.ts" "SRC" "/sub")) ∧
    (∃ st2 tgt2, moveFile c3Store 0 (⟨"a.ts", "SRC", "/a.ts"⟩ : VFile) 0 none =
        (some ⟨"a.ts", "SRC", "/a.ts"⟩, st2) ∧
      getDir st2 0 = some tgt2 ∧
      (∀ name, mapGet tgt2.files name =
        mapGet [("a.ts", (⟨"a.ts", "SRC", "/a.ts"⟩ : VFile))] name) ∧
      (∀ j, j ≠ 0 → getDir st2 j = getDir c3Store j)) :=
  ⟨C3_moveFile_overwrites_and_self_move_noop.1 c3Store 0 1 ⟨"a.ts", "SRC", "/a.ts"⟩
      ⟨"a.ts", "OLD", "/sub/a.ts"⟩
      ⟨"/", "/", none, [("sub", 1)], [("a.ts", ⟨"a.ts", "SRC", "/a.ts"⟩)]⟩
      ⟨"sub", "/sub", some 0, [], [("a.ts", ⟨"a.ts", "OLD", "/sub/a.ts"⟩)]⟩
      (by decide) (by decide) (by decide) (by decide) (by decide),
    C3_moveFile_overwrites_and_self_move_noop.2 c3Store 0 ⟨"a.ts", "SRC", "/a.ts"⟩
      ⟨"/", "/", none, [("sub", 1)], [("a.ts", ⟨"a.ts", "SRC", "/a.ts"⟩)]⟩
      (by decide) (by decide) (by decide)⟩

/-- C4: copyFile registers the clone under a destination name that is
free in the target before the call, so no existing entry is removed or
overwritten and every other name still resolves as before; the clone
keeps the source content; when the requested name is free it is used,
and on collision the minted name is the stripped base with the least
counter from one up whose candidate is free; copying test.ts into its
own directory twice yields test(1).ts then test(2).ts. -/
theorem C4_copyFile_never_overwrites :
    (∀ (st : VfsStore) (f : VFile) (tgtId : Nat) (newName : Option String) (tgt : DirNode),
      getDir st tgtId = some tgt →
      ∃ clone st2,
        copyFile st f tgtId newName = (some clone, st2) ∧
        clone.content = f.content ∧
        mapHas tgt.files clone.name = false ∧
        ∃ tgt2, getDir st2 tgtId = some tgt2 ∧
          mapGet tgt2.files clone.name = some clone ∧
          (∀ name, name ≠ clone.name → mapGet tgt2.files name = mapGet tgt.files name) ∧
          (∀ j, j ≠ tgtId → getDir st2 j = getDir st j) ∧
          (mapHas tgt.files (newName.getD f.name) = false →
            clone.name = newName.getD f.name) ∧
          (mapHas tgt.files (newName.getD f.name) = true → ∃ n, 1 ≤ n ∧
            clone.name =
              candName (copyBaseName (newName.getD f.name)) (getExtension f.name) n ∧
            (∀ m, 1 ≤ m → m < n →
              mapHas tgt.files (candName (copyBaseName (newName.getD f.name))
                (getExtension f.name) m) = true))) ∧
    ((createFileF (emptyRootState "/") "test.ts" "c").map
      (fun r => ((copyFileF r.1 "test.ts" "/" none).1.map (fun f => f.name))) =
      some (some "test(1).ts")) ∧
    ((createFileF (emptyRootState "/") "test.ts" "c").map (fun r =>
      ((copyFileF (copyFileF r.1 "test.ts" "/" none).2 "test.ts" "/" none).1.map
        (fun f => f.name))) = some (some "test(2).ts")) := by
  refine ⟨?_, by decide, by decide⟩
  intro st f tgtId newName tgt htgt
  rcases copyFile_spec st f tgtId newName tgt htgt with
    ⟨clone, st2, h1, h2, h3, h4, h5, h6, h7, h8, h9⟩
  refine ⟨clone, st2, h1, h2, h4, _, h5, ?_, ?_, h6, h8, h9⟩
  · exact mapGet_mapSet_self _ _ _
  · intro name hname
    exact mapGet_mapSet_ne _ _ _ _ (fun hc => hname hc.symm)

theorem C4_witness :
    ∃ clone st2,
      copyFile c3Store (⟨"a.ts", "SRC", "/a.ts"⟩ : VFile) 0 none = (some clone, st2) ∧
      clone.content = "SRC" ∧
      mapHas [("a.ts", (⟨"a.ts", "SRC", "/a.ts"⟩ : VFile))] clone.name = false ∧
      ∃ tgt2, getDir st2 0 = some tgt2 ∧
        mapGet tgt2.files clone.name = some clone ∧
        (∀ name, name ≠ clone.name → mapGet tgt2.files name =
          mapGet [("a.ts", (⟨"a.ts", "SRC", "/a.ts"⟩ : VFile))] name) ∧
        (∀ j, j ≠ 0 → getDir st2 j = getDir c3Store j) ∧
        (mapHas [("a.ts", (⟨"a.ts", "SRC", "/a.ts"⟩ : VFile))] "a.ts" = false →
          clone.name = "a.ts") ∧
        (mapHas [("a.ts", (⟨"a.ts", "SRC", "/a.ts"⟩ : VFile))] "a.ts" = true → ∃ n, 1 ≤ n ∧
          clone.name = candName (copyBaseName "a.ts") (getExtension "a.ts") n ∧
          (∀ m, 1 ≤ m → m < n →
            mapHas [("a.ts", (⟨"a.ts", "SRC", "/a.ts"⟩ : VFile))]
              (candName (copyBaseName "a.ts") (getExtension "a.ts") m) = true)) :=
  C4_copyFile_never_overwrites.1 c3Store ⟨"a.ts", "SRC", "/a.ts"⟩ 0 none
    ⟨"/", "/", none, [("sub", 1)], [("a.ts", ⟨"a.ts", "SRC", "/a.ts"⟩)]⟩ (by decide)

/-- C5: a concrete path naming an existing file on which deleteFile
returns false and changes nothing: with a pending modification in the
ledger, the modified tag occurs as a substring of modified.ts, the
lookup key becomes the tag itself, and the resolution misses. -/
theorem C5_deleteFile_tag_substring_misresolves :
    fileExistsF (writeFileF c5State "modified.ts" "y").2 "modified.ts" = true ∧
    (deleteFileF (writeFileF c5State "modified.ts" "y").2 "modified.ts").1 = false ∧
    (deleteFileF (writeFileF c5State "modified.ts" "y").2 "modified.ts").2 =
      (writeFileF c5State "modified.ts" "y").2 := by decide

/-- C6 counterexample: searching the bare separator from the root
directory resolves the walk to the receiver itself, yet findSubDirectory
returns the receiver (the early raw-path-equality return) instead of
the not-found the claim predicts for every self-resolution. -/
theorem C6_counterexample :
    splitFilter (posixNormalize "/") = [] ∧
    findSubDirectory (emptyRootState "/").store 0 "/" = some 0 := by decide

/-- C6 (amended): when the normalized search path has no nonempty
segments, so the walk resolves to the receiver itself, findSubDirectory
returns the receiver exactly when the raw search path equals the
receiver path field, and not-found otherwise. -/
theorem C6_self_resolution_amended (st : VfsStore) (selfId : Nat) (self : DirNode)
    (hself : getDir st selfId = some self) (searchPath : String)
    (hparts : splitFilter (posixNormalize searchPath) = []) :
    findSubDirectory st selfId searchPath =
      if self.path = searchPath then some selfId else none :=
  findSubDirectory_self st selfId self hself searchPath hparts

theorem C6_witness :
    findSubDirectory (emptyRootState "/").store 0 "//" =
      (if (newRootDir "/").path = "//" then some 0 else none) :=
  C6_self_resolution_amended (emptyRootState "/").store 0 (newRootDir "/") (by decide) "//"
    (by decide)

/-- C7: every successful glob result list is sorted by ascending path
length; every returned entry is the (separator-stripped when the
pattern is unanchored) stored path of a tree file whose name has an
allowlisted extension; results of anchored patterns are duplicate-free;
and the doubled-star scenario over the three test files returns all
three, shortest first. -/
theorem C7_glob_allowlist_sorted_dedup :
    (∀ (st : TSVFSState) (pat : String) (res : List String),
      globF st pat = some res →
      List.Sorted (fun a b : String => a.length ≤ b.length) res) ∧
    (∀ (st : TSVFSState) (pat : String) (res : List String) (p : String),
      globF st pat = some res → p ∈ res →
      ∃ i dir kv, getDir st.store i = some dir ∧ kv ∈ dir.files ∧
        SUPPORTED_EXTENSIONS.contains ("." ++ getExtension kv.2.name) = true ∧
        p = (if pat.data.head? = some '/' then kv.2.path else removeSlashes kv.2.path)) ∧
    (∀ (st : TSVFSState) (pat : String) (res : List String),
      pat.data.head? = some '/' → globF st pat = some res → res.Nodup) ∧
    globF c7State "src/**/*.ts" =
      some ["src/app/test.ts", "src/app/testing/test.ts",
        "src/app/testing/nested-test.ts"] :=
  ⟨globF_sorted, globF_mem_prov,
    fun st pat res hanch h => globF_nodup_anchored st pat res hanch h, by decide⟩

theorem C7_witness :
    List.Sorted (fun a b : String => a.length ≤ b.length)
      ["src/app/test.ts", "src/app/testing/test.ts", "src/app/testing/nested-test.ts"] :=
  C7_glob_allowlist_sorted_dedup.1 c7State "src/**/*.ts"
    ["src/app/test.ts", "src/app/testing/test.ts", "src/app/testing/nested-test.ts"]
    (by decide)

/-- C8: on a resolvable nonempty path whose directory is non-empty,
removeSubDirectory without force returns false and leaves the store
untouched; with force it returns true and deletes the entry from the
parent child map, unlinking the directory with all its descendants. -/
theorem C8_removeSubDirectory_force_semantics (st : VfsStore) (selfId : Nat)
    (dirPath : String) (curId pid : Nat) (cur parent : DirNode) (last : String)
    (hwalk : walkSubDirs st selfId (splitFilter dirPath) = some curId)
    (hcur : getDir st curId = some cur)
    (hlast : (splitFilter dirPath).getLast? = some last)
    (hpid : cur.parentDir = some pid)
    (hparent : getDir st pid = some parent)
    (hmem : mapHas parent.subDirs last = true)
    (hne : ¬ (cur.files = [] ∧ cur.subDirs = [])) :
    removeSubDirectory st selfId dirPath false = (false, st) ∧
    removeSubDirectory st selfId dirPath true =
      (true, setDir st pid ⟨parent.name, parent.path, parent.parentDir,
        mapDelete parent.subDirs last, parent.files⟩) :=
  ⟨(removeSubDirectory_spec st selfId dirPath curId pid cur parent last hwalk hcur hlast
      hpid hparent hmem).1 hne,
    (removeSubDirectory_spec st selfId dirPath curId pid cur parent last hwalk hcur hlast
      hpid hparent hmem).2⟩

theorem C8_witness :
    removeSubDirectory c3Store 0 "sub" false = (false, c3Store) ∧
    removeSubDirectory c3Store 0 "sub" true =
      (true, setDir c3Store 0 ⟨"/", "/", none, mapDelete [("sub", 1)] "sub",
        [("a.ts", ⟨"a.ts", "SRC", "/a.ts"⟩)]⟩) :=
  C8_removeSubDirectory_force_semantics c3Store 0 "sub" 1 0
    ⟨"sub", "/sub", some 0, [], [("a.ts", ⟨"a.ts", "OLD", "/sub/a.ts"⟩)]⟩
    ⟨"/", "/", none, [("sub", 1)], [("a.ts", ⟨"a.ts", "SRC", "/a.ts"⟩)]⟩ "sub"
    (by decide) (by decide) (by decide) (by decide) (by decide) (by decide) (by decide)

/-- C9: updateObjectLiteralMember leaves untouched any property
assignment with a negative position marker, so the member just added by
addMemberToObjectLiteral keeps its old value while the rest is updated
as usual; a valid-position member whose key matches receives the new
value; a key matching no member changes nothing; and no member is ever
inserted, the member count being preserved. -/
theorem C9_updateObjectLiteralMember_semantics :
    (∀ (t v : String) (pos pend : Int) (pname value : String),
      pos < 0 ∨ pend < 0 →
      updateObjectLiteralMemberOne t v (.propertyAssignment pos pend pname value) =
        .propertyAssignment pos pend pname value) ∧
    (∀ (props : List OLMember) (n v v2 : String),
      updateObjectLiteralMemberM (addMemberToObjectLiteralM props n v) n v2 =
        updateObjectLiteralMemberM props n v2 ++ [.propertyAssignment (-1) (-1) n v]) ∧
    (∀ (t v2 : String) (pos pend : Int) (value : String),
      ¬ (pos < 0 ∨ pend < 0) →
      updateObjectLiteralMemberOne t v2 (.propertyAssignment pos pend t value) =
        .propertyAssignment pos pend t v2) ∧
    (∀ (props : List OLMember) (t v : String),
      (∀ pos pend value, OLMember.propertyAssignment pos pend t value ∉ props) →
      updateObjectLiteralMemberM props t v = props) ∧
    (∀ (props : List OLMember) (t v : String),
      (updateObjectLiteralMemberM props t v).length = props.length) := by
  refine ⟨?_, ?_, ?_, updateObjectLiteralMemberM_unmatched, ?_⟩
  · intro t v pos pend pname value h
    simp only [updateObjectLiteralMemberOne]
    rw [if_pos h]
  · intro props n v v2
    simp only [updateObjectLiteralMemberM, addMemberToObjectLiteralM, List.map_append,
      List.map_cons, List.map_nil]
    have hpa : updateObjectLiteralMemberOne n v2
        (OLMember.propertyAssignment (-1) (-1) n v) =
        OLMember.propertyAssignment (-1) (-1) n v := by
      simp only [updateObjectLiteralMemberOne]
      rw [if_pos (Or.inl (by norm_num))]
    rw [hpa]
  · intro t v2 pos pend value h
    simp only [updateObjectLiteralMemberOne]
    rw [if_neg h]
    simp
  · intro props t v
    simp [updateObjectLiteralMemberM]

theorem C9_witness :
    updateObjectLiteralMemberOne "k" "v2" (.propertyAssignment (-1) (-1) "k" "v1") =
      OLMember.propertyAssignment (-1) (-1) "k" "v1" ∧
    updateObjectLiteralMemberOne "k" "v2" (.propertyAssignment 5 9 "k" "v1") =
      OLMember.propertyAssignment 5 9 "k" "v2" ∧
    updateObjectLiteralMemberM [OLMember.propertyAssignment 5 9 "other" "v1"] "k" "v2" =
      [OLMember.propertyAssignment 5 9 "other" "v1"] :=
  ⟨C9_updateObjectLiteralMember_semantics.1 "k" "v2" (-1) (-1) "k" "v1" (by decide),
    C9_updateObjectLiteralMember_semantics.2.2.1 "k" "v2" 5 9 "v1" (by decide),
    C9_updateObjectLiteralMember_semantics.2.2.2.1
      [OLMember.propertyAssignment 5 9 "other" "v1"] "k" "v2"
      (by intro pos pend value hmem; simp at hmem)⟩

/-- C10: the segment walk of addSubDirectory reuses every existing
directory and is idempotent over any fresh-id store, a second identical
call changing nothing and resolving to the same terminal id; creating a
file at a/b/c.ts makes both intermediate directories and the file
visible, and re-adding an existing intermediate path leaves the facade
state unchanged. -/
theorem C10_addSubDirectory_idempotent :
    (∀ (st : VfsStore) (selfId : Nat) (dirPath : String),
      FreshIds st →
      addSubDirectory (addSubDirectory st selfId dirPath).1 selfId dirPath =
        addSubDirectory st selfId dirPath) ∧
    ((createFileF (emptyRootState "/") "a/b/c.ts" "x").map
      (fun r => (directoryExistsF r.1 "a", directoryExistsF r.1 "a/b",
        fileExistsF r.1 "a/b/c.ts")) = some (true, true, true)) ∧
    (addDirectoryF c10State "a/b").1 = c10State := by
  refine ⟨?_, by decide, by decide⟩
  intro st selfId dirPath hf
  exact addSubDirectoryAux_idem (splitFilter dirPath) st selfId hf

theorem C10_witness :
    addSubDirectory (addSubDirectory c10State.store 0 "x/y").1 0 "x/y" =
      addSubDirectory c10State.store 0 "x/y" :=
  C10_addSubDirectory_idempotent.1 c10State.store 0 "x/y"
    (show ∀ i ∈ c10State.store.dirs.map Prod.fst, i < c10State.store.nextId from by decide)

example : posixNormalize "/a/../b" = "/b" := by rfl

example : posixNormalize "" = "." := by rfl

example : posixNormalize "/" = "/" := by rfl

example : posixNormalize "." = "." := by rfl

example : posixNormalize "a/b/" = "a/b/" := by rfl

example : posixJoin "/a" "b/c.ts" = "/a/b/c.ts" := by rfl

example : posixJoin "//" "x.ts" = "/x.ts" := by rfl

example : getExtension "test.ts" = "ts" := by rfl

example : getExtension "README" = "" := by rfl

example : natToStr 102 = "102" := by rfl

example : removeSlashes "/a/b/" = "a/b" := by rfl

example : trimQuotes "\"module\"" = "module" := by rfl

example : jsIncludes "modified.ts" "modified" = true := by rfl

end TSVFS

